import Mathlib

/-!
Shallow embedding of the MVCC transaction engine of the repository
(`src/storage/mvcc/txn.rs`), its forward-scanner DeltaEntry policy
(`src/storage/mvcc/reader/scanner/forward.rs`) and the pessimistic-lock
waiter manager (`src/server/lock_manager/waiter_manager.rs`),
together with proofs about the claims of the specification.

Conventions of the embedding:
  - timestamps (`TimeStamp` in `txn_types`) are modelled as `Nat`;
  - keys and values (byte strings) are modelled as `List Nat`;
  - the `MvccReader` snapshot abstraction (whose implementation file is not
    part of the reviewed sources; only its interface is described in §4.3 of
    the spec) is modelled per key as a descending-sorted association list of
    `(commit_ts, Write)` entries, an optional `Dagger` entry and an
    association list for the Default column family;
  - fallible operations return `Except ErrorInner`;
  - the buffered write batch (`WriteData`) is the ordered list of `Modify`
    operations held in the `MvccTxn` structure.
-/

namespace EinsteinDB

/-- Timestamps (`txn_types::TimeStamp`), a 64-bit TSO timestamp modelled as `Nat`. -/
abbrev TS := Nat

/-- Raw byte strings: keys and values. -/
abbrev Bytes := List Nat

abbrev Key := Bytes

abbrev Value := Bytes

/-- `TimeStamp::max()`: the largest 64-bit timestamp. -/
def tsMax : TS := 2 ^ 64 - 1

/-- Modelled from the spec: `txn_types::TimeStamp::physical` (the `txn_types`
component is not under the reviewed sources).  A TSO timestamp is composed of
a physical millisecond clock in the high bits and an 18-bit logical counter in
the low bits; `physical` extracts the high bits. -/
def TS.physical (ts : TS) : Nat := ts / 2 ^ 18

/-- `TimeStamp::prev()` (`ts - 1`, as used on nonzero commit timestamps). -/
def TS.prev (ts : TS) : TS := ts - 1

/-- `TimeStamp::next()`. -/
def TS.next (ts : TS) : TS := ts + 1

/-- `TimeStamp::is_zero()`. -/
def TS.is_zero (ts : TS) : Bool := ts = 0

/-- Modelled from the spec: `txn_types::is_short_value` — values under
`SHORT_VALUE_MAX_LEN` (64 bytes) are inlined in the Dagger / Write entry. -/
def is_short_value (v : Value) : Bool := v.length ≤ 64

/-- `txn_types::WriteType`: type tag of a Write column-family entry. -/
inductive WriteType where
  | Put
  | Delete
  | Dagger
  | Rollback
deriving DecidableEq, Repr

/-- `txn_types::LockType`: type tag of a Dagger column-family entry. -/
inductive LockType where
  | Put
  | Delete
  | Dagger
  | Pessimistic
deriving DecidableEq, Repr

/-- `txn_types::Write`: a persisted record of a committed or rolled-back
version of a key (the Write column family).  The rollback-protection flag of
a Rollback record is carried by the `protected_flag` field. -/
structure Write where
  write_type : WriteType
  spacelike_ts : TS
  short_value : Option Value := none
  has_overlapped_rollback : Bool := false
  protected_flag : Bool := false
deriving DecidableEq, Repr

/-- `Write::new_rollback`. -/
def Write.new_rollback (spacelike_ts : TS) (protect : Bool) : Write :=
  { write_type := .Rollback, spacelike_ts := spacelike_ts, protected_flag := protect }

/-- `Write::set_overlapped_rollback(true)`. -/
def Write.set_overlapped_rollback (w : Write) : Write :=
  { w with has_overlapped_rollback := true }

/-- `WriteRef::is_protected`. -/
def Write.is_protected (w : Write) : Bool := w.protected_flag

/-- `txn_types::Lock` (named `Dagger` throughout this repository): the
persisted record marking a key as currently owned by an in-flight
transaction. -/
structure Dagger where
  lock_type : LockType
  primary : Bytes
  ts : TS
  ttl : Nat
  short_value : Option Value := none
  for_ufidelate_ts : TS := 0
  txn_size : Nat := 0
  min_commit_ts : TS := 0
  use_async_commit : Bool := false
  secondaries : List Bytes := []
  rollback_ts : List TS := []
deriving DecidableEq, Repr

/-- `Dagger::new` with the eight positional arguments used by `txn.rs`. -/
def Dagger.new (lock_type : LockType) (primary : Bytes) (ts : TS) (ttl : Nat)
    (short_value : Option Value) (for_ufidelate_ts : TS) (txn_size : Nat)
    (min_commit_ts : TS) : Dagger :=
  { lock_type := lock_type, primary := primary, ts := ts, ttl := ttl,
    short_value := short_value, for_ufidelate_ts := for_ufidelate_ts,
    txn_size := txn_size, min_commit_ts := min_commit_ts }

/-- `kvproto::LockInfo`, the payload of a `KeyIsLocked` error. -/
structure LockInfo where
  key : Bytes
  primary_lock : Bytes
  lock_version : TS
  lock_ttl : Nat
  txn_size : Nat
deriving DecidableEq, Repr

/-- `Dagger::into_lock_info`. -/
def Dagger.into_lock_info (d : Dagger) (raw_key : Bytes) : LockInfo :=
  { key := raw_key, primary_lock := d.primary, lock_version := d.ts,
    lock_ttl := d.ttl, txn_size := d.txn_size }

/-- `txn_types::Mutation`. -/
inductive Mutation where
  | Put (key : Key) (value : Value)
  | Delete (key : Key)
  | Dagger (key : Key)
  | Insert (key : Key) (value : Value)
  | CheckNotExists (key : Key)
deriving DecidableEq, Repr

/-- `txn_types::MutationType`. -/
inductive MutationType where
  | Put
  | Delete
  | Dagger
  | Insert
  | Other
deriving DecidableEq, Repr

/-- `Mutation::mutation_type`. -/
def Mutation.mutation_type : Mutation → MutationType
  | .Put _ _ => .Put
  | .Delete _ => .Delete
  | .Dagger _ => .Dagger
  | .Insert _ _ => .Insert
  | .CheckNotExists _ => .Other

/-- `Mutation::should_not_exists` (Insert / CheckNotExists constraint). -/
def Mutation.should_not_exists : Mutation → Bool
  | .Insert _ _ => true
  | .CheckNotExists _ => true
  | _ => false

/-- `Mutation::should_not_write` (CheckNotExists writes nothing). -/
def Mutation.should_not_write : Mutation → Bool
  | .CheckNotExists _ => true
  | _ => false

/-- `LockType::from_mutation`. -/
def LockType.from_mutation : Mutation → Option LockType
  | .Put _ _ => some .Put
  | .Insert _ _ => some .Put
  | .Delete _ => some .Delete
  | .Dagger _ => some .Dagger
  | .CheckNotExists _ => none

/-- `Mutation::into_key_value`. -/
def Mutation.into_key_value : Mutation → Key × Option Value
  | .Put k v => (k, some v)
  | .Delete k => (k, none)
  | .Dagger k => (k, none)
  | .Insert k v => (k, some v)
  | .CheckNotExists k => (k, none)

/-- Modelled from the spec: `Key::gen_hash` of the `txn_types` component (not
under the reviewed sources) — a deterministic hash of the raw key, consumed by
the waiter manager through `ReleasedLock`. -/
def Key.gen_hash (k : Key) : Nat := k.foldl (fun a b => a * 31 + b + 1) 7

/-- `MvccTxn::ReleasedLock`: transient information about a released dagger. -/
structure ReleasedLock where
  hash : Nat
  pessimistic : Bool
deriving DecidableEq, Repr

/-- `ReleasedLock::new`. -/
def ReleasedLock.new (key : Key) (pessimistic : Bool) : ReleasedLock :=
  { hash := key.gen_hash, pessimistic := pessimistic }

/-- The buffered column-family operations (`kv::Modify`).  The encoded key of
the Write / Default families is the raw key with the timestamp appended, so
the timestamp is kept as a separate component here. -/
inductive Modify where
  | putLock (key : Key) (dagger : Dagger)
  | delLock (key : Key)
  | putDefault (key : Key) (ts : TS) (value : Value)
  | delDefault (key : Key) (ts : TS)
  | putWrite (key : Key) (ts : TS) (w : Write)
  | delWrite (key : Key) (ts : TS)
deriving DecidableEq, Repr

/-- Modelled from the spec: the serialized length of a Dagger record
(`Lock::to_bytes().len()`; serialization lives in the `txn_types` component,
not under the reviewed sources). -/
def Dagger.bytesLen (d : Dagger) : Nat :=
  1 + d.primary.length + 8 + 8 + (d.short_value.getD []).length + 8 + 8 + 8

/-- Modelled from the spec: the serialized length of a Write record
(`Write::as_ref().to_bytes().len()`). -/
def Write.bytesLen (w : Write) : Nat :=
  1 + 8 + (w.short_value.getD []).length

/-- Modelled from the spec: `kv::Modify::size` — the byte size of a buffered
write-batch operation (key length, plus the 8-byte appended timestamp for the
Write / Default families, plus the value length for puts). -/
def Modify.size : Modify → Nat
  | .putLock k d => k.length + d.bytesLen
  | .delLock k => k.length
  | .putDefault k _ v => k.length + 8 + v.length
  | .delDefault k _ => k.length + 8
  | .putWrite k _ w => k.length + 8 + w.bytesLen
  | .delWrite k _ => k.length + 8

/-- The recoverable error taxonomy of the transaction engine
(`mvcc::ErrorInner`), restricted to the variants the embedded operations
produce. -/
inductive ErrorInner where
  | KeyIsLocked (info : LockInfo)
  | WriteConflict (spacelike_ts : TS) (conflict_spacelike_ts : TS)
      (conflict_commit_ts : TS) (key : Bytes) (primary : Bytes)
  | AlreadyExist (key : Bytes)
  | PessimisticLockNotFound (spacelike_ts : TS) (key : Bytes)
  | PessimisticLockRolledBack (spacelike_ts : TS) (key : Bytes)
  | LockTypeNotMatch (spacelike_ts : TS) (key : Bytes) (pessimistic : Bool)
  | TxnNotFound (spacelike_ts : TS) (key : Bytes)
  | Committed (commit_ts : TS)
  | DefaultNotFound (key : Bytes)
  | Other
deriving DecidableEq, Repr

/-- Results of fallible operations are compared in concrete witnesses, so
equality on `Except` is made decidable. -/
instance {e a : Type} [DecidableEq e] [DecidableEq a] :
    DecidableEq (Except e a) := fun x y =>
  match x, y with
  | .error e1, .error e2 =>
    if h : e1 = e2 then .isTrue (by rw [h]) else
      .isFalse (fun hx => by cases hx; exact h rfl)
  | .ok a1, .ok a2 =>
    if h : a1 = a2 then .isTrue (by rw [h]) else
      .isFalse (fun hx => by cases hx; exact h rfl)
  | .error _, .ok _ => .isFalse (fun hx => by cases hx)
  | .ok _, .error _ => .isFalse (fun hx => by cases hx)

/-- `TxnStatus` (`storage::types`), the outcomes reported by
`check_txn_status_missing_lock`. -/
inductive TxnStatus where
  | RolledBack
  | Committed (commit_ts : TS)
  | LockNotExist
deriving DecidableEq, Repr

/-! ### The per-key snapshot view of the `MvccReader`

`MvccReader`'s implementation file is not among the reviewed sources (only its
interface is re-exported from `storage/mvcc/reader/mod.rs` and described in
§4.3 of the spec), so the reader operations are modelled from the spec over an
explicit per-key view of the three column families. -/

/-- The per-key content of the three column families seen by one snapshot.
`writes` is ordered by descending commit timestamp, mirroring the byte
encoding that makes higher timestamps sort first. -/
structure KeyData where
  dagger : Option Dagger := none
  writes : List (TS × Write) := []
  defaults : List (TS × Value) := []
deriving DecidableEq, Repr

/-- The Write entries of a key are strictly descending in commit timestamp
(§3: at most one Write entry exists per commit timestamp). -/
def sortedDesc (l : List (TS × Write)) : Prop :=
  l.Pairwise (fun a b => b.1 < a.1)

instance (l : List (TS × Write)) : Decidable (sortedDesc l) := by
  unfold sortedDesc; infer_instance

/-- Modelled from the spec: `MvccReader::seek_write(key, ts)` — finds the most
recent Write entry with commit timestamp ≤ ts (§4.3). -/
def seek_write : List (TS × Write) → TS → Option (TS × Write)
  | [], _ => none
  | (c, w) :: rest, ts => if c ≤ ts then some (c, w) else seek_write rest ts

/-- Modelled from the spec: `MvccReader::load_lock(key)` — point lookup in the
Dagger family (§4.3). -/
def load_lock (kd : KeyData) : Option Dagger := kd.dagger

/-- Modelled from the spec: the Default-family point lookup backing
`MvccReader::load_data` — the value keyed by raw key + start timestamp. -/
def load_default (kd : KeyData) (spacelike_ts : TS) : Option Value :=
  (kd.defaults.find? (fun e => e.1 = spacelike_ts)).map (·.2)

/-- Modelled from the spec: `MvccReader::load_data(key, write)` — retrieves
the value of a Put write, from the Write entry's inlined short value or from
the Default family (§4.3). -/
def load_data (kd : KeyData) (key : Key) (w : Write) : Except ErrorInner Value :=
  match w.short_value with
  | some v => .ok v
  | none =>
    match load_default kd w.spacelike_ts with
    | some v => .ok v
    | none => .error (.DefaultNotFound key)

/-- Modelled from the spec: `MvccReader::get(key, ts, ...)` — the value
visible at read timestamp `ts`, walking Write entries from newest to oldest
until a Put or Delete is found, skipping Dagger/Rollback entries (§4.3). -/
def reader_get (kd : KeyData) (key : Key) : List (TS × Write) → TS →
    Except ErrorInner (Option Value)
  | [], _ => .ok none
  | (c, w) :: rest, ts =>
    if c ≤ ts then
      match w.write_type with
      | .Put => (load_data kd key w).map some
      | .Delete => .ok none
      | .Dagger => reader_get kd key rest ts
      | .Rollback => reader_get kd key rest ts
    else reader_get kd key rest ts

/-- `MvccReader::get` lightlikeed at the key's own version list. -/
def KeyData.get (kd : KeyData) (key : Key) (ts : TS) :
    Except ErrorInner (Option Value) :=
  reader_get kd key kd.writes ts

/-- `TxnCommitRecord` (`storage/mvcc/reader`): how the outcome of the
transaction spacelikeing at a given timestamp is recorded in the Write family. -/
inductive TxnCommitRecord where
  | SingleRecord (commit_ts : TS) (write : Write)
  | OverlappedRollback
  | NotFound (overlapped_write : Option Write)
deriving DecidableEq, Repr

/-- Modelled from the spec: `MvccReader::get_txn_commit_record(key, ts)` —
scans Write entries newest→oldest, classifying a committed / rolled-back write
at exactly `spacelike_ts`, a rollback overlapped onto another transaction's
commit at that timestamp, or nothing (returning the overlapping write's info
when one exists, needed to build `has_overlapped_rollback`) (§4.3). -/
def get_txn_commit_record : List (TS × Write) → TS → TxnCommitRecord
  | [], _ => .NotFound none
  | (c, w) :: rest, spacelike_ts =>
    if c < spacelike_ts then .NotFound none
    else if w.spacelike_ts = spacelike_ts then .SingleRecord c w
    else if c = spacelike_ts then
      if w.has_overlapped_rollback then .OverlappedRollback
      else .NotFound (some w)
    else get_txn_commit_record rest spacelike_ts

/-- `TxnCommitRecord::unwrap_none` (total model: the non-`NotFound` cases,
which the source asserts never happen on the paths that call it, yield
`none`). -/
def TxnCommitRecord.unwrap_none : TxnCommitRecord → Option Write
  | .NotFound o => o
  | _ => none

/-! ### The `MvccTxn` write path (`storage/mvcc/txn.rs`) -/

/-- `MAX_TXN_WRITE_SIZE` (`txn.rs` line 17). -/
def MAX_TXN_WRITE_SIZE : Nat := 32 * 1024

/-- `GcInfo`. -/
structure GcInfo where
  found_versions : Nat
  deleted_versions : Nat
  is_completed : Bool
deriving DecidableEq, Repr

/-- `txn_types::OldValue`: the previously committed value recorded for
change-data-capture. -/
structure OldValue where
  short_value : Option Value
  spacelike_ts : TS
deriving DecidableEq, Repr

/-- One record added by `TxnExtra::add_old_value`. -/
structure OldValueRecord where
  key : Key
  ts : TS
  old_value : Option OldValue
  mutation_type : MutationType
deriving DecidableEq, Repr

/-- The in-memory state of `MvccTxn`: the transaction's start timestamp, the
buffered write batch with its accumulated size, the collapse-rollback switch,
the extra-op state (`extra_op` is true for `ExtraOp::ReadOldValue`), and the
concurrency-manager view used by the async-commit path (modelled as its
current `max_ts` plus the list of acquired key guards). -/
structure MvccTxn where
  spacelike_ts : TS
  write_size : Nat := 0
  modifies : List Modify := []
  collapse_rollback : Bool := true
  extra_op : Bool := false
  extra : List OldValueRecord := []
  max_ts : TS := 0
  guards : List Key := []
deriving DecidableEq, Repr

/-- `MvccTxn::put_lock`. -/
def MvccTxn.put_lock (txn : MvccTxn) (key : Key) (dagger : Dagger) : MvccTxn :=
  let write := Modify.putLock key dagger
  { txn with write_size := txn.write_size + write.size,
             modifies := txn.modifies ++ [write] }

/-- `MvccTxn::unlock_key`. -/
def MvccTxn.unlock_key (txn : MvccTxn) (key : Key) (pessimistic : Bool) :
    Option ReleasedLock × MvccTxn :=
  let released := ReleasedLock.new key pessimistic
  let write := Modify.delLock key
  (some released,
   { txn with write_size := txn.write_size + write.size,
              modifies := txn.modifies ++ [write] })

/-- `MvccTxn::put_value`. -/
def MvccTxn.put_value (txn : MvccTxn) (key : Key) (ts : TS) (value : Value) :
    MvccTxn :=
  let write := Modify.putDefault key ts value
  { txn with write_size := txn.write_size + write.size,
             modifies := txn.modifies ++ [write] }

/-- `MvccTxn::delete_value`. -/
def MvccTxn.delete_value (txn : MvccTxn) (key : Key) (ts : TS) : MvccTxn :=
  let write := Modify.delDefault key ts
  { txn with write_size := txn.write_size + write.size,
             modifies := txn.modifies ++ [write] }

/-- `MvccTxn::put_write`. -/
def MvccTxn.put_write (txn : MvccTxn) (key : Key) (ts : TS) (w : Write) :
    MvccTxn :=
  let write := Modify.putWrite key ts w
  { txn with write_size := txn.write_size + write.size,
             modifies := txn.modifies ++ [write] }

/-- `MvccTxn::delete_write`. -/
def MvccTxn.delete_write (txn : MvccTxn) (key : Key) (ts : TS) : MvccTxn :=
  let write := Modify.delWrite key ts
  { txn with write_size := txn.write_size + write.size,
             modifies := txn.modifies ++ [write] }

/-- `MvccTxn::key_exist`. -/
def MvccTxn.key_exist (kd : KeyData) (ts : TS) : Bool :=
  (seek_write kd.writes ts).isSome

/-- The entries strictly below the one `seek_write` finds: the position of the
write cursor after `seek_write` followed by one `next()`. -/
def after_seek : List (TS × Write) → TS → List (TS × Write)
  | [], _ => []
  | (c, _) :: rest, ts => if c ≤ ts then rest else after_seek rest ts

/-- Modelled from the spec: `seek_for_valid_write` of the scanner module (the
scanner's `mod.rs` is not among the reviewed sources) — walk entries of the
same user key newest→oldest, skipping Dagger/Rollback entries, until a Put or
Delete is found. -/
def seek_for_valid_write : List (TS × Write) → Option Write
  | [] => none
  | (_, w) :: rest =>
    match w.write_type with
    | .Put => some w
    | .Delete => some w
    | .Dagger => seek_for_valid_write rest
    | .Rollback => seek_for_valid_write rest

/-- `MvccTxn::check_extra_op`: records the old value when the extra op is
`ReadOldValue` and the mutation is a Put or Delete. -/
def MvccTxn.check_extra_op (txn : MvccTxn) (kd : KeyData) (key : Key)
    (mutation_type : MutationType) (prev_write : Option Write) : MvccTxn :=
  if txn.extra_op ∧ (mutation_type = .Put ∨ mutation_type = .Delete) then
    let old_value :=
      match prev_write with
      | some w =>
        if w.write_type = .Rollback ∨ w.write_type = .Dagger then
          (seek_for_valid_write (after_seek kd.writes tsMax)).map
            (fun v => { short_value := v.short_value, spacelike_ts := v.spacelike_ts })
        else
          some { short_value := w.short_value, spacelike_ts := w.spacelike_ts }
      | none => none
    { txn with extra := txn.extra ++
        [{ key := key, ts := txn.spacelike_ts, old_value := old_value,
           mutation_type := mutation_type }] }
  else txn

/-- `MvccTxn::check_data_constraint`: the Insert / CheckNotExists existence
check — `AlreadyExist` when the newest write is a Put, or is a
Rollback/Dagger entry under which an older version still exists. -/
def check_data_constraint (kd : KeyData) (should_not_exist : Bool) (w : Write)
    (write_commit_ts : TS) (key : Key) : Except ErrorInner Unit :=
  if ¬should_not_exist ∨ w.write_type = .Delete then .ok ()
  else if w.write_type = .Put ∨ MvccTxn.key_exist kd write_commit_ts.prev then
    .error (.AlreadyExist key)
  else .ok ()

/-- `MvccTxn::prewrite_key_value`: builds the new Dagger entry, inlining short
values or buffering long values into the Default family, computing the
async-commit `min_commit_ts` under the key guard when secondary keys are
supplied, and buffering the Dagger put.  Returns the async-commit timestamp
(zero when not an async-commit prewrite). -/
def MvccTxn.prewrite_key_value (txn : MvccTxn) (key : Key)
    (lock_type : LockType) (primary : Bytes)
    (secondary_tuplespaceInstanton : Option (List Bytes)) (value : Option Value)
    (lock_ttl : Nat) (for_ufidelate_ts : TS) (txn_size : Nat)
    (min_commit_ts : TS) : TS × MvccTxn :=
  let dagger := Dagger.new lock_type primary txn.spacelike_ts lock_ttl none
    for_ufidelate_ts txn_size min_commit_ts
  let (dagger, txn) :=
    match value with
    | some v =>
      if is_short_value v then ({ dagger with short_value := some v }, txn)
      else (dagger, txn.put_value key txn.spacelike_ts v)
    | none => (dagger, txn)
  let (async_commit_ts, dagger, txn) :=
    match secondary_tuplespaceInstanton with
    | some sks =>
      let dagger := { dagger with use_async_commit := true, secondaries := sks }
      let guarded_min_commit_ts :=
        (max (max txn.max_ts txn.spacelike_ts) for_ufidelate_ts).next
      let dagger :=
        { dagger with min_commit_ts := max dagger.min_commit_ts guarded_min_commit_ts }
      (dagger.min_commit_ts, dagger, { txn with guards := txn.guards ++ [key] })
    | none => (0, dagger, txn)
  (async_commit_ts, txn.put_lock key dagger)

/-- `MvccTxn::prewrite` (the optimistic prewrite, `txn.rs` lines 706-803). -/
def MvccTxn.prewrite (txn : MvccTxn) (kd : KeyData) (mutation : Mutation)
    (primary : Bytes) (secondary_tuplespaceInstanton : Option (List Bytes))
    (skip_constraint_check : Bool) (lock_ttl : Nat) (txn_size : Nat)
    (min_commit_ts : TS) : Except ErrorInner (TS × MvccTxn) := do
  let lock_type := LockType.from_mutation mutation
  let should_not_exist := mutation.should_not_exists
  let should_not_write := mutation.should_not_write
  let mutation_type := mutation.mutation_type
  let (key, value) := mutation.into_key_value
  let prev_write ←
    if skip_constraint_check then pure none
    else
      match seek_write kd.writes tsMax with
      | some (commit_ts, w) =>
        if txn.spacelike_ts < commit_ts then
          Except.error (.WriteConflict txn.spacelike_ts w.spacelike_ts commit_ts
            key primary)
        else if commit_ts = txn.spacelike_ts ∧
            (w.write_type = .Rollback ∨ w.has_overlapped_rollback) then
          Except.error (.WriteConflict txn.spacelike_ts w.spacelike_ts commit_ts
            key primary)
        else do
          check_data_constraint kd should_not_exist w commit_ts key
          pure (some w)
      | none => pure none
  if should_not_write then
    return (0, txn)
  match load_lock kd with
  | some dagger =>
    if dagger.ts ≠ txn.spacelike_ts then
      Except.error (.KeyIsLocked (dagger.into_lock_info key))
    else if dagger.lock_type = .Pessimistic then
      Except.error (.LockTypeNotMatch txn.spacelike_ts key true)
    else
      -- Duplicated command: no need to overwrite the dagger and data.
      return (dagger.min_commit_ts, txn)
  | none =>
    let txn := txn.check_extra_op kd key mutation_type prev_write
    -- `lock_type.unwrap()` is safe in the source: `should_not_write`
    -- returned above for the only mutation without a lock type.
    return txn.prewrite_key_value key (lock_type.getD .Put) primary
      secondary_tuplespaceInstanton value lock_ttl 0 txn_size min_commit_ts

/-- `MvccTxn::acquire_pessimistic_lock` (`txn.rs` lines 428-571). -/
def MvccTxn.acquire_pessimistic_lock (txn : MvccTxn) (kd : KeyData) (key : Key)
    (primary : Bytes) (should_not_exist : Bool) (lock_ttl : Nat)
    (for_ufidelate_ts : TS) (need_value : Bool) (min_commit_ts : TS) :
    Except ErrorInner (Option Value × MvccTxn) :=
  let pessimistic_lock := Dagger.new .Pessimistic primary txn.spacelike_ts
    lock_ttl none for_ufidelate_ts 0 min_commit_ts
  match load_lock kd with
  | some dagger =>
    if dagger.ts ≠ txn.spacelike_ts then
      Except.error (.KeyIsLocked (dagger.into_lock_info key))
    else if dagger.lock_type ≠ .Pessimistic then
      Except.error (.LockTypeNotMatch txn.spacelike_ts key false)
    else do
      let val ← if need_value then kd.get key for_ufidelate_ts else pure none
      -- Overwrite the dagger only when the new for-update-ts is larger.
      if dagger.for_ufidelate_ts < for_ufidelate_ts then
        return (val, txn.put_lock key pessimistic_lock)
      else
        return (val, txn)
  | none => do
    let val ←
      match seek_write kd.writes tsMax with
      | some (commit_ts, w) => do
        if for_ufidelate_ts < commit_ts then
          Except.error (.WriteConflict txn.spacelike_ts w.spacelike_ts commit_ts
            key primary)
        if commit_ts = txn.spacelike_ts ∧
            (w.write_type = .Rollback ∨ w.has_overlapped_rollback) then
          Except.error (.PessimisticLockRolledBack txn.spacelike_ts key)
        if txn.spacelike_ts < commit_ts then
          match seek_write kd.writes txn.spacelike_ts with
          | some (_, w2) =>
            if w2.spacelike_ts = txn.spacelike_ts then
              Except.error (.PessimisticLockRolledBack txn.spacelike_ts key)
            else pure ()
          | none => pure ()
        check_data_constraint kd should_not_exist w commit_ts key
        if need_value then
          match w.write_type with
          | .Put => (load_data kd key w).map some
          | .Delete => pure none
          | .Dagger => kd.get key commit_ts.prev
          | .Rollback => kd.get key commit_ts.prev
        else pure none
      | none => pure none
    return (val, txn.put_lock key pessimistic_lock)

/-- `MvccTxn::amlightlike_pessimistic_lock` (`txn.rs` lines 653-704): tolerate a
missing pessimistic dagger only under pipelined locking when the key's newest
commit timestamp is strictly below the transaction's start timestamp. -/
def MvccTxn.amlightlike_pessimistic_lock (txn : MvccTxn) (kd : KeyData)
    (pipelined_pessimistic_lock : Bool) (key : Key) : Except ErrorInner Unit :=
  if ¬pipelined_pessimistic_lock then
    .error (.PessimisticLockNotFound txn.spacelike_ts key)
  else
    match seek_write kd.writes tsMax with
    | some (commit_ts, _) =>
      if txn.spacelike_ts ≤ commit_ts then
        .error (.PessimisticLockNotFound txn.spacelike_ts key)
      else .ok ()
    | none => .ok ()

/-- `MvccTxn::pessimistic_prewrite` (`txn.rs` lines 573-649). -/
def MvccTxn.pessimistic_prewrite (txn : MvccTxn) (kd : KeyData)
    (mutation : Mutation) (primary : Bytes)
    (secondary_tuplespaceInstanton : Option (List Bytes))
    (is_pessimistic_lock : Bool) (lock_ttl : Nat) (for_ufidelate_ts : TS)
    (txn_size : Nat) (min_commit_ts : TS)
    (pipelined_pessimistic_lock : Bool) : Except ErrorInner (TS × MvccTxn) :=
  if mutation.should_not_write then
    -- "cannot handle checkNotExists in pessimistic prewrite"
    Except.error .Other
  else
    let mutation_type := mutation.mutation_type
    let lock_type := LockType.from_mutation mutation
    let (key, value) := mutation.into_key_value
    let cont := fun lock_ttl min_commit_ts => do
      let txn := txn.check_extra_op kd key mutation_type none
      -- No need to check data constraint, it's resolved by pessimistic locks.
      pure (txn.prewrite_key_value key (lock_type.getD .Put) primary
        secondary_tuplespaceInstanton value lock_ttl for_ufidelate_ts txn_size
        min_commit_ts)
    match load_lock kd with
    | some dagger =>
      if dagger.ts ≠ txn.spacelike_ts then
        if is_pessimistic_lock then
          Except.error (.PessimisticLockNotFound txn.spacelike_ts key)
        else
          -- handle_non_pessimistic_lock_conflict: KeyIsLocked with ttl 0.
          Except.error (.KeyIsLocked
            { dagger.into_lock_info key with lock_ttl := 0 })
      else if dagger.lock_type ≠ .Pessimistic then
        -- Duplicated command.
        Except.ok (dagger.min_commit_ts, txn)
      else
        cont (max lock_ttl dagger.ttl) (max min_commit_ts dagger.min_commit_ts)
    | none =>
      if is_pessimistic_lock then do
        txn.amlightlike_pessimistic_lock kd pipelined_pessimistic_lock key
        cont lock_ttl min_commit_ts
      else
        cont lock_ttl min_commit_ts

/-- `make_rollback` (`txn.rs` lines 28-45): the Write record a rollback should
write — on an overlapped write, set its flag when the rollback is protected,
otherwise write nothing; with no overlap, a fresh Rollback record. -/
def make_rollback (spacelike_ts : TS) (protect : Bool)
    (overlapped_write : Option Write) : Option Write :=
  match overlapped_write with
  | some write =>
    if protect then some write.set_overlapped_rollback else none
  | none => some (Write.new_rollback spacelike_ts protect)

/-- `MissingLockAction`. -/
inductive MissingLockAction where
  | Rollback
  | ProtectedRollback
  | ReturnError
deriving DecidableEq, Repr

/-- `MissingLockAction::rollback_protect`. -/
def MissingLockAction.rollback_protect (protect_rollback : Bool) :
    MissingLockAction :=
  if protect_rollback then .ProtectedRollback else .Rollback

/-- `MissingLockAction::construct_write` (the `ReturnError` case is
unreachable in the source). -/
def MissingLockAction.construct_write : MissingLockAction → TS → Option Write →
    Option Write
  | .Rollback, ts, ow => make_rollback ts false ow
  | .ProtectedRollback, ts, ow => make_rollback ts true ow
  | .ReturnError, _, _ => none

/-- `MvccTxn::collapse_prev_rollback` (`txn.rs` lines 927-934). -/
def MvccTxn.collapse_prev_rollback (txn : MvccTxn) (kd : KeyData) (key : Key) :
    MvccTxn :=
  match seek_write kd.writes txn.spacelike_ts with
  | some (commit_ts, write) =>
    if write.write_type = .Rollback ∧ ¬write.is_protected then
      txn.delete_write key commit_ts
    else txn
  | none => txn

/-- `MvccTxn::mark_rollback_on_mismatching_lock` (`txn.rs` lines 360-386). -/
def MvccTxn.mark_rollback_on_mismatching_lock (txn : MvccTxn) (key : Key)
    (dagger : Dagger) (is_protected : Bool) : MvccTxn :=
  if ¬is_protected then txn
  else if txn.spacelike_ts < dagger.min_commit_ts then txn
  else if ¬dagger.use_async_commit then txn
  else
    txn.put_lock key
      { dagger with rollback_ts := dagger.rollback_ts ++ [txn.spacelike_ts] }

/-- `MvccTxn::rollback_lock` (`txn.rs` lines 329-350).  In this per-key model
`key.is_encoded_from(&dagger.primary)` is raw-key equality. -/
def MvccTxn.rollback_lock (txn : MvccTxn) (kd : KeyData) (key : Key)
    (dagger : Dagger) (is_pessimistic_txn : Bool)
    (overlapped_write : Option Write) : Option ReleasedLock × MvccTxn :=
  let txn :=
    if dagger.short_value = none ∧ dagger.lock_type = .Put then
      txn.delete_value key dagger.ts
    else txn
  let protect : Bool := is_pessimistic_txn && key == dagger.primary
  let txn :=
    match make_rollback txn.spacelike_ts protect overlapped_write with
    | some write => txn.put_write key txn.spacelike_ts write
    | none => txn
  let txn :=
    if txn.collapse_rollback then txn.collapse_prev_rollback kd key else txn
  txn.unlock_key key is_pessimistic_txn

/-- `MvccTxn::check_write_and_rollback_lock` (`txn.rs` lines 316-327). -/
def MvccTxn.check_write_and_rollback_lock (txn : MvccTxn) (kd : KeyData)
    (key : Key) (dagger : Dagger) (is_pessimistic_txn : Bool) :
    Option ReleasedLock × MvccTxn :=
  let overlapped_write :=
    (get_txn_commit_record kd.writes txn.spacelike_ts).unwrap_none
  txn.rollback_lock kd key dagger is_pessimistic_txn overlapped_write

/-- `MvccTxn::check_txn_status_missing_lock` (`txn.rs` lines 818-872). -/
def MvccTxn.check_txn_status_missing_lock (txn : MvccTxn) (kd : KeyData)
    (primary_key : Key) (mismatch_lock : Option Dagger)
    (action : MissingLockAction) : Except ErrorInner (TxnStatus × MvccTxn) :=
  match get_txn_commit_record kd.writes txn.spacelike_ts with
  | .SingleRecord commit_ts write =>
    if write.write_type = .Rollback then .ok (.RolledBack, txn)
    else .ok (.Committed commit_ts, txn)
  | .OverlappedRollback => .ok (.RolledBack, txn)
  | .NotFound overlapped_write =>
    if action = .ReturnError then
      .error (.TxnNotFound txn.spacelike_ts primary_key)
    else
      let ts := txn.spacelike_ts
      let txn :=
        if txn.collapse_rollback then txn.collapse_prev_rollback kd primary_key
        else txn
      let txn :=
        match mismatch_lock, overlapped_write with
        | some l, none =>
          txn.mark_rollback_on_mismatching_lock primary_key l
            (action = .ProtectedRollback)
        | _, _ => txn
      let txn :=
        match action.construct_write ts overlapped_write with
        | some write => txn.put_write primary_key ts write
        | none => txn
      .ok (.LockNotExist, txn)

/-- `MvccTxn::cleanup` (`txn.rs` lines 880-925). -/
def MvccTxn.cleanup (txn : MvccTxn) (kd : KeyData) (key : Key)
    (current_ts : TS) (protect_rollback : Bool) :
    Except ErrorInner (Option ReleasedLock × MvccTxn) :=
  let missing := fun (l : Option Dagger) => do
    match ← txn.check_txn_status_missing_lock kd key l
        (.rollback_protect protect_rollback) with
    | (.Committed commit_ts, _) => Except.error (.Committed commit_ts)
    | (.RolledBack, txn) => Except.ok ((none : Option ReleasedLock), txn)
    | (.LockNotExist, txn) => Except.ok (none, txn)
  match load_lock kd with
  | some dagger =>
    if dagger.ts = txn.spacelike_ts then
      -- If current_ts is not 0 and the dagger is not expired, report locked.
      if ¬current_ts.is_zero ∧
          current_ts.physical ≤ dagger.ts.physical + dagger.ttl then
        Except.error (.KeyIsLocked (dagger.into_lock_info key))
      else
        let is_pessimistic_txn := !dagger.for_ufidelate_ts.is_zero
        Except.ok (txn.check_write_and_rollback_lock kd key dagger
          is_pessimistic_txn)
    else missing (some dagger)
  | none => missing none

/-- `MvccTxn::rollback` (`txn.rs` lines 805-816). -/
def MvccTxn.rollback (txn : MvccTxn) (kd : KeyData) (key : Key) :
    Except ErrorInner (Option ReleasedLock × MvccTxn) :=
  txn.cleanup kd key 0 false

/-- The loop body of `MvccTxn::gc` (`txn.rs` lines 936-1001).  The source
iterates with `seek_write(key, ts)` at `ts := commit.prev()` each round; over
a descending-sorted version list that walk visits exactly the successive list
entries, so the loop is embedded as structural recursion over the list. -/
def MvccTxn.gcAux (key : Key) (safe_point : TS) :
    MvccTxn → List (TS × Write) → Bool → Option TS → Nat → Nat →
    MvccTxn × Option TS × Nat × Nat × Bool
  | txn, [], _, latest_delete, found, deleted =>
    (txn, latest_delete, found, deleted, true)
  | txn, (commit, write) :: rest, remove_older, latest_delete, found, deleted =>
    let found := found + 1
    if MAX_TXN_WRITE_SIZE ≤ txn.write_size then
      -- Cannot remove latest delete when we haven't iterated all versions.
      (txn, none, found, deleted, false)
    else if remove_older then
      let txn := txn.delete_write key commit
      let txn :=
        if write.write_type = .Put ∧ write.short_value = none then
          txn.delete_value key write.spacelike_ts
        else txn
      MvccTxn.gcAux key safe_point txn rest remove_older latest_delete found
        (deleted + 1)
    else if safe_point < commit then
      MvccTxn.gcAux key safe_point txn rest remove_older latest_delete found
        deleted
    else
      -- Set remove_older after we find the latest value.
      let remove_older :=
        write.write_type == .Put || write.write_type == .Delete
      match write.write_type with
      | .Delete =>
        MvccTxn.gcAux key safe_point txn rest remove_older (some commit) found
          deleted
      | .Rollback =>
        MvccTxn.gcAux key safe_point (txn.delete_write key commit) rest
          remove_older latest_delete found (deleted + 1)
      | .Dagger =>
        MvccTxn.gcAux key safe_point (txn.delete_write key commit) rest
          remove_older latest_delete found (deleted + 1)
      | .Put =>
        MvccTxn.gcAux key safe_point txn rest remove_older latest_delete found
          deleted

/-- `MvccTxn::gc`. -/
def MvccTxn.gc (txn : MvccTxn) (kd : KeyData) (key : Key) (safe_point : TS) :
    GcInfo × MvccTxn :=
  let (txn, latest_delete, found_versions, deleted_versions, is_completed) :=
    MvccTxn.gcAux key safe_point txn kd.writes false none 0 0
  let (txn, deleted_versions) :=
    match latest_delete with
    | some commit => (txn.delete_write key commit, deleted_versions + 1)
    | none => (txn, deleted_versions)
  ({ found_versions := found_versions, deleted_versions := deleted_versions,
     is_completed := is_completed }, txn)

/-! ### Applying a flushed write batch to the per-key store

The transaction engine only buffers `Modify` operations; the caller flushes
them atomically through the write-batch sink (§6).  Applying a batch to the
per-key view yields the snapshot a subsequent command reads. -/

/-- Insert a Write entry into a descending-sorted version list, replacing any
entry at the same commit timestamp. -/
def insertWrite : List (TS × Write) → TS → Write → List (TS × Write)
  | [], ts, w => [(ts, w)]
  | (c, x) :: rest, ts, w =>
    if ts < c then (c, x) :: insertWrite rest ts w
    else if ts = c then (ts, w) :: rest
    else (ts, w) :: (c, x) :: rest

/-- Remove the Write entry at the given commit timestamp. -/
def removeWrite (l : List (TS × Write)) (ts : TS) : List (TS × Write) :=
  l.filter (fun e => e.1 ≠ ts)

/-- Apply one `Modify` to the view of the key `key`; operations addressed to
other keys leave it unchanged. -/
def applyModify (key : Key) (kd : KeyData) : Modify → KeyData
  | .putLock k dagger =>
    if k = key then { kd with dagger := some dagger } else kd
  | .delLock k =>
    if k = key then { kd with dagger := none } else kd
  | .putDefault k ts v =>
    if k = key then
      { kd with defaults := (ts, v) :: kd.defaults.filter (fun e => e.1 ≠ ts) }
    else kd
  | .delDefault k ts =>
    if k = key then
      { kd with defaults := kd.defaults.filter (fun e => e.1 ≠ ts) }
    else kd
  | .putWrite k ts w =>
    if k = key then { kd with writes := insertWrite kd.writes ts w } else kd
  | .delWrite k ts =>
    if k = key then { kd with writes := removeWrite kd.writes ts } else kd

/-- Apply a whole buffered batch in order. -/
def applyModifies (key : Key) (kd : KeyData) (mods : List Modify) : KeyData :=
  mods.foldl (applyModify key) kd

/-! ### The pessimistic-lock waiter manager
(`src/server/lock_manager/waiter_manager.rs`) -/

/-- `storage::lock_manager::Lock` (named `Dagger` in the waiter manager): the
released lock's start timestamp and key hash. -/
structure LockDigest where
  ts : TS
  hash : Nat
deriving DecidableEq, Repr

/-- The pending result a `Waiter` will deliver on notification
(`ProcessResult` restricted to the states the waiter manager produces). -/
inductive WaiterResult where
  | KeyIsLocked (key : Bytes) (primary : Bytes)
  | WriteConflict (spacelike_ts : TS) (conflict_spacelike_ts : TS)
      (conflict_commit_ts : TS) (key : Bytes) (primary : Bytes)
  | Deadlock (spacelike_ts : TS) (lock_ts : TS) (key : Bytes)
      (deadlock_key_hash : Nat)
deriving DecidableEq, Repr

/-- `Waiter::extract_key_info`: the key and primary carried by the pending
result. -/
def WaiterResult.key_info : WaiterResult → Bytes × Bytes
  | .KeyIsLocked k p => (k, p)
  | .WriteConflict _ _ _ k p => (k, p)
  | .Deadlock _ _ k _ => (k, [])

/-- `Delay`: a cancellable timer.  `deadline` is the immutable field of the
`Delay` struct (`reset` never rewrites it and compares new deadlines against
it); `timer` is the fire time of the wrapped timer, which `reset` rewrites. -/
structure Delay where
  deadline : Nat
  timer : Nat
  cancelled : Bool
deriving DecidableEq, Repr

/-- `Delay::new`. -/
def Delay.new (deadline : Nat) : Delay :=
  { deadline := deadline, timer := deadline, cancelled := false }

/-- `Delay::reset` (`waiter_manager.rs` lines 65-70): resets the instance
only to an earlier deadline than the original one. -/
def Delay.reset (d : Delay) (deadline : Nat) : Delay :=
  if deadline < d.deadline then { d with timer := deadline } else d

/-- `Delay::cancel`. -/
def Delay.cancel (d : Delay) : Delay := { d with cancelled := true }

/-- `Waiter`: an in-memory record of a transaction blocked on a pessimistic
lock. -/
structure Waiter where
  spacelike_ts : TS
  pr : WaiterResult
  dagger : LockDigest
  delay : Delay
deriving DecidableEq, Repr

/-- `Waiter::conflict_with`: change the pending result to `WriteConflict`
referencing the released lock's timestamp and the commit timestamp. -/
def Waiter.conflict_with (w : Waiter) (lock_ts : TS) (commit_ts : TS) :
    Waiter :=
  let (key, primary) := w.pr.key_info
  { w with pr := .WriteConflict w.spacelike_ts lock_ts commit_ts key primary }

/-- `Waiter::reset_timeout`. -/
def Waiter.reset_timeout (w : Waiter) (deadline : Nat) : Waiter :=
  { w with delay := w.delay.reset deadline }

/-- `Waiter::notify` cancels the delay timer (the callback execution itself
is outside the model; the notified waiter's `pr` is what it delivers). -/
def Waiter.notify (w : Waiter) : Waiter :=
  { w with delay := w.delay.cancel }

/-- The index and value of the first minimal `spacelike_ts` in a waiter list
(Rust's `Iterator::min_by_key` returns the first of equally minimal
elements). -/
def minStartIdx : List Waiter → Option (Nat × TS)
  | [] => none
  | w :: rest =>
    match minStartIdx rest with
    | none => some (0, w.spacelike_ts)
    | some (i, m) =>
      if w.spacelike_ts ≤ m then some (0, w.spacelike_ts)
      else some (i + 1, m)

/-- `Vec::swap_remove`: replace the element at `i` by the last element and
drop the last. -/
def swapRemove (xs : List Waiter) (i : Nat) : List Waiter :=
  match xs.getLast? with
  | none => xs
  | some last => (xs.set i last).dropLast

/-- `WaitTable::remove_oldest_waiter` (`waiter_manager.rs` lines 348-360):
removes and returns the waiter with the smallest start timestamp, together
with the remaining waiters of the bucket. -/
def remove_oldest_waiter (waiters : List Waiter) :
    Option (Waiter × List Waiter) :=
  match minStartIdx waiters with
  | none => none
  | some (i, _) => (waiters.get? i).map (fun w => (w, swapRemove waiters i))

/-- `WaiterManager::handle_wake_up` for one lock hash (`waiter_manager.rs`
lines 499-529): the oldest waiter is removed, marked `WriteConflict` and
notified immediately; every other waiter of the bucket is marked
`WriteConflict` and its timer is reset to `now + wake_up_delay_duration`. -/
def handle_wake_up_hash (waiters : List Waiter) (lock_ts : TS)
    (commit_ts : TS) (now : Nat) (wake_up_delay_duration : Nat) :
    Option (Waiter × List Waiter) :=
  let new_timeout := now + wake_up_delay_duration
  match remove_oldest_waiter waiters with
  | none => none
  | some (oldest, others) =>
    let oldest := (oldest.conflict_with lock_ts commit_ts).notify
    some (oldest,
      others.map (fun w => (w.conflict_with lock_ts commit_ts).reset_timeout
        new_timeout))

/-- An empty `minStartIdx` means an empty list. -/
theorem minStartIdx_none :
    ∀ l : List Waiter, minStartIdx l = none → l = [] := by
  intro l h
  cases l with
  | nil => rfl
  | cons w rest =>
    cases hrest : minStartIdx rest with
    | none => simp only [minStartIdx, hrest] at h; cases h
    | some p =>
      obtain ⟨j, m⟩ := p
      simp only [minStartIdx, hrest] at h
      by_cases hle : w.spacelike_ts ≤ m
      · rw [if_pos hle] at h; cases h
      · rw [if_neg hle] at h; cases h

/-- `minStartIdx` points at a waiter carrying the minimal start timestamp. -/
theorem minStartIdx_spec :
    ∀ (l : List Waiter) (i : Nat) (m : TS),
      minStartIdx l = some (i, m) →
      (∃ w, l.get? i = some w ∧ w.spacelike_ts = m) ∧
      ∀ w ∈ l, m ≤ w.spacelike_ts := by
  intro l
  induction l with
  | nil => intro i m h; simp [minStartIdx] at h
  | cons w rest ih =>
    intro i m h
    cases hrest : minStartIdx rest with
    | none =>
      have hnil := minStartIdx_none rest hrest
      subst hnil
      simp only [minStartIdx] at h
      injection h with h
      injection h with h1 h2
      subst h1; subst h2
      refine ⟨⟨w, rfl, rfl⟩, fun w2 hm => ?_⟩
      rcases List.mem_cons.mp hm with he | hm2
      · exact he ▸ le_refl _
      · cases hm2
    | some p =>
      obtain ⟨j, m2⟩ := p
      simp only [minStartIdx, hrest] at h
      obtain ⟨⟨w2, hw2, hw2ts⟩, hall⟩ := ih j m2 hrest
      by_cases hle : w.spacelike_ts ≤ m2
      · rw [if_pos hle] at h
        injection h with h
        injection h with h1 h2
        subst h1; subst h2
        refine ⟨⟨w, rfl, rfl⟩, fun w3 hm => ?_⟩
        rcases List.mem_cons.mp hm with he | hm2
        · exact he ▸ le_refl _
        · exact le_trans hle (hall w3 hm2)
      · rw [if_neg hle] at h
        injection h with h
        injection h with h1 h2
        subst h2
        refine ⟨⟨w2, by rw [← h1]; simpa using hw2, hw2ts⟩,
          fun w3 hm => ?_⟩
        rcases List.mem_cons.mp hm with he | hm2
        · exact he ▸ le_of_lt (not_le.mp hle)
        · exact hall w3 hm2

/-- `minStartIdx` succeeds on a non-empty list. -/
theorem minStartIdx_isSome (l : List Waiter) (h : l ≠ []) :
    ∃ i m, minStartIdx l = some (i, m) := by
  cases l with
  | nil => exact absurd rfl h
  | cons w rest =>
    cases hrest : minStartIdx rest with
    | none => exact ⟨0, w.spacelike_ts, by simp only [minStartIdx, hrest]⟩
    | some p =>
      obtain ⟨j, m2⟩ := p
      by_cases hle : w.spacelike_ts ≤ m2
      · exact ⟨0, w.spacelike_ts, by
          simp only [minStartIdx, hrest]; rw [if_pos hle]⟩
      · exact ⟨j + 1, m2, by
          simp only [minStartIdx, hrest]; rw [if_neg hle]⟩

/-- `swapRemove` shortens a non-empty list by one. -/
theorem swapRemove_length (xs : List Waiter) (i : Nat) (h : xs ≠ []) :
    (swapRemove xs i).length = xs.length - 1 := by
  rw [swapRemove]
  cases hl : xs.getLast? with
  | none => exact absurd (List.getLast?_eq_none_iff.mp hl) h
  | some last => simp

/-- Every element of `swapRemove xs i` is an element of `xs`. -/
theorem swapRemove_subset (xs : List Waiter) (i : Nat) (w : Waiter)
    (h : w ∈ swapRemove xs i) : w ∈ xs := by
  rw [swapRemove] at h
  cases hl : xs.getLast? with
  | none => rwa [hl] at h
  | some last =>
    rw [hl] at h
    have h2 := List.dropLast_subset _ h
    rcases List.mem_or_eq_of_mem_set h2 with h3 | h3
    · exact h3
    · obtain ⟨hne, heq⟩ :=
        List.mem_getLast?_eq_getLast (Option.mem_def.mpr hl)
      exact h3 ▸ (heq ▸ List.getLast_mem hne)

/-- Claim C3: a WakeUp on a lock hash with a non-empty waiter bucket removes
and immediately notifies the waiter with the smallest start timestamp, with a
`WriteConflict` result referencing the released lock's timestamp and the
commit timestamp; every other waiter of that hash has its pending result
changed to `WriteConflict` and its timer deadline reset to
`now + wake_up_delay_duration`, never exceeding that waiter's original
deadline. -/
theorem C3_wake_up_oldest_first
    (waiters : List Waiter) (lock_ts commit_ts : TS) (now delay_dur : Nat)
    (hne : waiters ≠ []) :
    ∃ oldest others,
      handle_wake_up_hash waiters lock_ts commit_ts now delay_dur
        = some (oldest, others) ∧
      (∃ i w0, waiters.get? i = some w0 ∧
        oldest = (w0.conflict_with lock_ts commit_ts).notify ∧
        others = (swapRemove waiters i).map
          (fun w => (w.conflict_with lock_ts commit_ts).reset_timeout
            (now + delay_dur))) ∧
      (∀ w ∈ waiters, oldest.spacelike_ts ≤ w.spacelike_ts) ∧
      (∃ k p, oldest.pr
        = .WriteConflict oldest.spacelike_ts lock_ts commit_ts k p) ∧
      oldest.delay.cancelled = true ∧
      others.length = waiters.length - 1 ∧
      (∀ w2 ∈ others, ∃ w ∈ waiters,
        w2 = (w.conflict_with lock_ts commit_ts).reset_timeout
          (now + delay_dur) ∧
        (∃ k p, w2.pr
          = .WriteConflict w.spacelike_ts lock_ts commit_ts k p) ∧
        w2.delay.deadline = w.delay.deadline ∧
        w2.delay.timer = (if now + delay_dur < w.delay.deadline then
          now + delay_dur else w.delay.timer) ∧
        (w.delay.timer ≤ w.delay.deadline →
          w2.delay.timer ≤ w.delay.deadline)) := by
  obtain ⟨i, m, hmin⟩ := minStartIdx_isSome waiters hne
  obtain ⟨⟨w0, hw0, hw0ts⟩, hall⟩ := minStartIdx_spec waiters i m hmin
  refine ⟨(w0.conflict_with lock_ts commit_ts).notify,
    (swapRemove waiters i).map
      (fun w => (w.conflict_with lock_ts commit_ts).reset_timeout
        (now + delay_dur)), ?_, ⟨i, w0, hw0, rfl, rfl⟩, ?_, ?_, ?_, ?_, ?_⟩
  · simp only [handle_wake_up_hash, remove_oldest_waiter, hmin, hw0,
      Option.map_some']
  · intro w hm
    have : ((w0.conflict_with lock_ts commit_ts).notify).spacelike_ts
        = w0.spacelike_ts := by
      simp [Waiter.notify, Waiter.conflict_with]
    rw [this, hw0ts]
    exact hall w hm
  · refine ⟨(w0.pr.key_info).1, (w0.pr.key_info).2, ?_⟩
    simp [Waiter.notify, Waiter.conflict_with]
  · simp [Waiter.notify, Waiter.conflict_with, Delay.cancel]
  · rw [List.length_map, swapRemove_length waiters i hne]
  · intro w2 hm
    obtain ⟨w, hw, hweq⟩ := List.mem_map.mp hm
    refine ⟨w, swapRemove_subset waiters i w hw, hweq.symm, ?_, ?_, ?_, ?_⟩
    · refine ⟨(w.pr.key_info).1, (w.pr.key_info).2, ?_⟩
      rw [← hweq]
      simp [Waiter.reset_timeout, Waiter.conflict_with, Delay.reset]
    · rw [← hweq]
      simp only [Waiter.reset_timeout, Waiter.conflict_with, Delay.reset]
      split <;> rfl
    · rw [← hweq]
      simp only [Waiter.reset_timeout, Waiter.conflict_with, Delay.reset]
      split <;> rfl
    · intro hinv
      rw [← hweq]
      simp only [Waiter.reset_timeout, Waiter.conflict_with, Delay.reset]
      split
      · next hlt => exact le_of_lt hlt
      · exact hinv

/-- Sample waiters for the C3 witness. -/
def sampleWaiter (spacelike_ts : TS) (deadline : Nat) : Waiter :=
  { spacelike_ts := spacelike_ts, pr := .KeyIsLocked [1] [2],
    dagger := { ts := 10, hash := 7 }, delay := Delay.new deadline }

/-- Witness for C3: waking the hash bucket holding waiters started at 30 and
20 notifies the waiter started at 20. -/
theorem C3_wake_up_oldest_first_witness :
    ∃ oldest others,
      handle_wake_up_hash [sampleWaiter 30 100, sampleWaiter 20 80]
          10 15 0 50
        = some (oldest, others) ∧
      ∀ w ∈ [sampleWaiter 30 100, sampleWaiter 20 80],
        oldest.spacelike_ts ≤ w.spacelike_ts := by
  obtain ⟨o, os, h1, _, h3, _⟩ := C3_wake_up_oldest_first
    [sampleWaiter 30 100, sampleWaiter 20 80] 10 15 0 50 (by decide)
  exact ⟨o, os, h1, h3⟩

/-! ### The forward scanner's DeltaEntry policy
(`src/storage/mvcc/reader/scanner/forward.rs` lines 562-726) -/

/-- `HandleRes` of the scan policies. -/
inductive HandleRes (α : Type) where
  | Return (out : α)
  | Skip (key : Key)
deriving DecidableEq, Repr

/-- `TxnEntry`: an emitted prewrite (pending lock) or commit entry. -/
inductive TxnEntry where
  | Prewrite (default : Bytes × Value) (dagger : Key × Dagger)
      (old_value : Option Value)
  | Commit (default : Bytes × Value) (write : (Key × TS) × Write)
      (old_value : Option Value)
deriving DecidableEq, Repr

/-- Modelled from the spec: `seek_for_valid_value` of the scanner module (not
among the reviewed sources) — the old-value lookup for change-data-capture:
the newest committed value at or below the given timestamp, skipping
Dagger/Rollback entries. -/
def seek_for_valid_value (kd : KeyData) (key : Key) :
    List (TS × Write) → TS → Except ErrorInner (Option Value)
  | [], _ => .ok none
  | (c, w) :: rest, ts =>
    if c ≤ ts then
      match w.write_type with
      | .Put => (load_data kd key w).map some
      | .Delete => .ok none
      | .Dagger => seek_for_valid_value kd key rest ts
      | .Rollback => seek_for_valid_value kd key rest ts
    else seek_for_valid_value kd key rest ts

/-- `DeltaEntryPolicy::handle_lock` (`forward.rs` lines 580-636): skip the
lock when its start timestamp exceeds the scan timestamp, otherwise emit it
as a `Prewrite` entry (loading the Default value for an uninlined Put lock,
and the old value when the extra op is `ReadOldValue`). -/
def delta_handle_lock (kd : KeyData) (current_user_key : Key) (dagger : Dagger)
    (cfg_ts : TS) (extra_op : Bool) :
    Except ErrorInner (HandleRes TxnEntry) :=
  if cfg_ts < dagger.ts then .ok (.Skip current_user_key)
  else
    let load_default_res : Except ErrorInner (Bytes × Value) :=
      if dagger.lock_type = .Put ∧ dagger.short_value = none then
        match load_default kd dagger.ts with
        | some v => .ok (current_user_key, v)
        | none => .error (.DefaultNotFound current_user_key)
      else .ok ([], [])
    do
      let old_value ←
        if extra_op ∧
            (dagger.lock_type = .Put ∨ dagger.lock_type = .Delete) then
          seek_for_valid_value kd current_user_key kd.writes
            (max dagger.ts dagger.for_ufidelate_ts)
        else pure none
      match load_default_res with
      | .ok dflt =>
        .ok (.Return (.Prewrite dflt (current_user_key, dagger) old_value))
      | .error e => .error e

/-- `DeltaEntryPolicy::handle_write` (`forward.rs` lines 638-725), embedded
over the version list the write cursor traverses (the versions of the
current user key with commit timestamp at most the scan timestamp — the
`ForwardScanner` has already skipped the greater versions). -/
def delta_handle_write (kd : KeyData) (current_user_key : Key) (from_ts : TS)
    (extra_op : Bool) :
    List (TS × Write) → Except ErrorInner (HandleRes TxnEntry)
  | [] => .ok (.Skip current_user_key)
  | (commit_ts, w) :: rest =>
    if commit_ts ≤ from_ts then .ok (.Skip current_user_key)
    else if w.write_type = .Rollback ∨ w.write_type = .Dagger then
      -- Skip it and try the next record.
      delta_handle_write kd current_user_key from_ts extra_op rest
    else do
      let dflt ←
        if w.write_type = .Put ∧ w.short_value = none then
          match load_default kd w.spacelike_ts with
          | some v => pure (current_user_key, v)
          | none => Except.error (.DefaultNotFound current_user_key)
        else pure (([] : Bytes), ([] : Value))
      let old_value ←
        if extra_op ∧ (w.write_type = .Put ∨ w.write_type = .Delete) then
          seek_for_valid_value kd current_user_key rest commit_ts
        else pure none
      .ok (.Return (.Commit dflt ((current_user_key, commit_ts), w) old_value))

/-! ## Theorems about the claims -/

/-- A sample committed Put record with an inlined short value, used by
concrete witnesses and counterexamples. -/
def samplePut (spacelike_ts : TS) : Write :=
  { write_type := .Put, spacelike_ts := spacelike_ts, short_value := some [9] }

/-- Claim C10: the `MvccTxn` write buffer is append-only — each of the six
buffering operations appends exactly one `Modify` to the buffer and raises
`write_size` by exactly that operation's size, so `write_size` is
non-decreasing and always equals the sum of the sizes of the buffered
operations. -/
theorem C10_write_buffer_append_only
    (txn : MvccTxn) (key : Key) (d : Dagger) (ts : TS) (v : Value) (w : Write)
    (pess : Bool)
    (hinv : txn.write_size = (txn.modifies.map Modify.size).sum) :
    ((txn.put_lock key d).modifies = txn.modifies ++ [.putLock key d] ∧
      (txn.put_lock key d).write_size
        = txn.write_size + (Modify.putLock key d).size ∧
      (txn.put_lock key d).write_size
        = ((txn.put_lock key d).modifies.map Modify.size).sum ∧
      txn.write_size ≤ (txn.put_lock key d).write_size) ∧
    (((txn.unlock_key key pess).2).modifies = txn.modifies ++ [.delLock key] ∧
      ((txn.unlock_key key pess).2).write_size
        = txn.write_size + (Modify.delLock key).size ∧
      ((txn.unlock_key key pess).2).write_size
        = (((txn.unlock_key key pess).2).modifies.map Modify.size).sum ∧
      txn.write_size ≤ ((txn.unlock_key key pess).2).write_size) ∧
    ((txn.put_value key ts v).modifies
        = txn.modifies ++ [.putDefault key ts v] ∧
      (txn.put_value key ts v).write_size
        = txn.write_size + (Modify.putDefault key ts v).size ∧
      (txn.put_value key ts v).write_size
        = ((txn.put_value key ts v).modifies.map Modify.size).sum ∧
      txn.write_size ≤ (txn.put_value key ts v).write_size) ∧
    ((txn.delete_value key ts).modifies
        = txn.modifies ++ [.delDefault key ts] ∧
      (txn.delete_value key ts).write_size
        = txn.write_size + (Modify.delDefault key ts).size ∧
      (txn.delete_value key ts).write_size
        = ((txn.delete_value key ts).modifies.map Modify.size).sum ∧
      txn.write_size ≤ (txn.delete_value key ts).write_size) ∧
    ((txn.put_write key ts w).modifies = txn.modifies ++ [.putWrite key ts w] ∧
      (txn.put_write key ts w).write_size
        = txn.write_size + (Modify.putWrite key ts w).size ∧
      (txn.put_write key ts w).write_size
        = ((txn.put_write key ts w).modifies.map Modify.size).sum ∧
      txn.write_size ≤ (txn.put_write key ts w).write_size) ∧
    ((txn.delete_write key ts).modifies
        = txn.modifies ++ [.delWrite key ts] ∧
      (txn.delete_write key ts).write_size
        = txn.write_size + (Modify.delWrite key ts).size ∧
      (txn.delete_write key ts).write_size
        = ((txn.delete_write key ts).modifies.map Modify.size).sum ∧
      txn.write_size ≤ (txn.delete_write key ts).write_size) := by
  refine ⟨⟨rfl, rfl, ?_, ?_⟩, ⟨rfl, rfl, ?_, ?_⟩, ⟨rfl, rfl, ?_, ?_⟩,
    ⟨rfl, rfl, ?_, ?_⟩, ⟨rfl, rfl, ?_, ?_⟩, ⟨rfl, rfl, ?_, ?_⟩⟩ <;>
    simp [MvccTxn.put_lock, MvccTxn.unlock_key, MvccTxn.put_value,
      MvccTxn.delete_value, MvccTxn.put_write, MvccTxn.delete_write, hinv]

/-- Witness for C10 at a concrete transaction. -/
theorem C10_write_buffer_append_only_witness :
    ({ spacelike_ts := 1 } : MvccTxn).write_size
      = ((({ spacelike_ts := 1 } : MvccTxn)).modifies.map Modify.size).sum ∧
    (({ spacelike_ts := 1 } : MvccTxn).put_write [0] 2
        (Write.new_rollback 2 false)).modifies
      = [.putWrite [0] 2 (Write.new_rollback 2 false)] :=
  ⟨by decide,
   by
    have h := (C10_write_buffer_append_only { spacelike_ts := 1 } [0]
      (Dagger.new .Put [] 1 0 none 0 0 0) 2 [] (Write.new_rollback 2 false)
      false (by decide)).2.2.2.2.1.1
    simpa using h⟩

/-- Claim C1: an optimistic prewrite with `skip_constraint_check = false`
fails with `WriteConflict` when the newest Write entry's commit timestamp
strictly exceeds the transaction's start timestamp, and also when that entry
sits exactly at the start timestamp and is a Rollback or carries the
has-overlapped-rollback flag. -/
theorem C1_prewrite_write_conflict
    (txn : MvccTxn) (kd : KeyData) (mutation : Mutation) (primary : Bytes)
    (sk : Option (List Bytes)) (lock_ttl txn_size : Nat) (mct : TS)
    (c : TS) (w : Write)
    (hseek : seek_write kd.writes tsMax = some (c, w)) :
    (txn.spacelike_ts < c →
      txn.prewrite kd mutation primary sk false lock_ttl txn_size mct
        = .error (.WriteConflict txn.spacelike_ts w.spacelike_ts c
            mutation.into_key_value.1 primary)) ∧
    (c = txn.spacelike_ts →
      (w.write_type = .Rollback ∨ w.has_overlapped_rollback = true) →
      txn.prewrite kd mutation primary sk false lock_ttl txn_size mct
        = .error (.WriteConflict txn.spacelike_ts w.spacelike_ts c
            mutation.into_key_value.1 primary)) := by
  constructor
  · intro hlt
    simp [MvccTxn.prewrite, hseek, hlt, Bind.bind, Except.bind]
  · intro hc hw
    subst hc
    have hnlt : ¬txn.spacelike_ts < txn.spacelike_ts := lt_irrefl _
    rcases hw with h | h <;>
      simp [MvccTxn.prewrite, hseek, hnlt, h, Bind.bind, Except.bind]

/-- Witness for C1: a newer committed Put conflicts, and a rollback record at
exactly the start timestamp conflicts. -/
theorem C1_prewrite_write_conflict_witness :
    MvccTxn.prewrite { spacelike_ts := 5 }
        { writes := [(7, samplePut 6)] }
        (.Put [1] [2]) [1] none false 0 0 0
      = .error (.WriteConflict 5 6 7 [1] [1]) ∧
    MvccTxn.prewrite { spacelike_ts := 5 }
        { writes := [(5, Write.new_rollback 5 false)] }
        (.Put [1] [2]) [1] none false 0 0 0
      = .error (.WriteConflict 5 5 5 [1] [1]) :=
  ⟨(C1_prewrite_write_conflict { spacelike_ts := 5 } _ _ _ _ _ _ _ 7
      (samplePut 6) (by decide)).1 (by decide),
   (C1_prewrite_write_conflict { spacelike_ts := 5 } _ _ _ _ _ _ _ 5
      (Write.new_rollback 5 false) (by decide)).2 (by decide)
      (Or.inl (by decide))⟩

/-- `rollback_lock` always releases the dagger: its result's first component
is `some` released lock (it ends in `unlock_key`). -/
theorem rollback_lock_released (txn : MvccTxn) (kd : KeyData) (key : Key)
    (d : Dagger) (b : Bool) (ow : Option Write) :
    ∃ rel txn2, txn.rollback_lock kd key d b ow = (some rel, txn2) := by
  unfold MvccTxn.rollback_lock MvccTxn.unlock_key
  exact ⟨_, _, rfl⟩

/-- `check_write_and_rollback_lock` always releases the dagger. -/
theorem check_write_and_rollback_lock_released (txn : MvccTxn) (kd : KeyData)
    (key : Key) (d : Dagger) (b : Bool) :
    ∃ rel txn2,
      (Except.ok (txn.check_write_and_rollback_lock kd key d b) :
        Except ErrorInner (Option ReleasedLock × MvccTxn))
      = .ok (some rel, txn2) := by
  obtain ⟨rel, txn2, h⟩ := rollback_lock_released txn kd key d b
    ((get_txn_commit_record kd.writes txn.spacelike_ts).unwrap_none)
  exact ⟨rel, txn2, by simp only [MvccTxn.check_write_and_rollback_lock, h]⟩

/-- Claim C9: `cleanup` on a key whose Dagger belongs to the calling start
timestamp compares the physical components of the timestamps — `KeyIsLocked`
is returned exactly when `current_ts` is nonzero and
`lock.ts.physical + lock.ttl ≥ current_ts.physical`; with `current_ts = 0`
the TTL check is bypassed and the lock is always rolled back. -/
theorem C9_cleanup_ttl_physical
    (txn : MvccTxn) (kd : KeyData) (key : Key) (current_ts : TS)
    (protect_rollback : Bool) (d : Dagger)
    (hl : load_lock kd = some d) (hts : d.ts = txn.spacelike_ts) :
    (txn.cleanup kd key current_ts protect_rollback
        = .error (.KeyIsLocked (d.into_lock_info key))
      ↔ current_ts ≠ 0 ∧ current_ts.physical ≤ d.ts.physical + d.ttl) ∧
    (current_ts = 0 → ∃ rel txn2,
      txn.cleanup kd key current_ts protect_rollback
        = .ok (some rel, txn2)) := by
  by_cases h : current_ts ≠ 0 ∧ current_ts.physical ≤ d.ts.physical + d.ttl
  · have hc : (¬current_ts.is_zero = true ∧
        current_ts.physical ≤ d.ts.physical + d.ttl) :=
      ⟨by simp [TS.is_zero, h.1], h.2⟩
    refine ⟨?_, fun h0 => absurd h0 h.1⟩
    simp only [MvccTxn.cleanup, hl]
    rw [if_pos hts, if_pos hc]
    exact ⟨fun _ => h, fun _ => rfl⟩
  · have hc : ¬(¬current_ts.is_zero = true ∧
        current_ts.physical ≤ d.ts.physical + d.ttl) :=
      fun hx => h ⟨by simpa [TS.is_zero] using hx.1, hx.2⟩
    constructor
    · simp only [MvccTxn.cleanup, hl]
      rw [if_pos hts, if_neg hc]
      exact iff_of_false (by simp) h
    · intro h0
      simp only [MvccTxn.cleanup, hl]
      rw [if_pos hts, if_neg hc]
      exact check_write_and_rollback_lock_released ..

/-- Witness for C9: an unexpired lock (physical components equal) reports
`KeyIsLocked`; with `current_ts = 0` the same lock is rolled back. -/
theorem C9_cleanup_ttl_physical_witness :
    (MvccTxn.cleanup { spacelike_ts := 5 }
        { dagger := some (Dagger.new .Put [1] 5 100 none 0 0 0) } [1] 9 false
      = .error (.KeyIsLocked ((Dagger.new .Put [1] 5 100 none 0 0 0).into_lock_info [1]))) ∧
    (∃ rel txn2, MvccTxn.cleanup { spacelike_ts := 5 }
        { dagger := some (Dagger.new .Put [1] 5 100 none 0 0 0) } [1] 0 false
      = .ok (some rel, txn2)) :=
  ⟨(C9_cleanup_ttl_physical { spacelike_ts := 5 } _ [1] 9 false
      (Dagger.new .Put [1] 5 100 none 0 0 0) (by decide) (by decide)).1.mpr
      (by decide),
   (C9_cleanup_ttl_physical { spacelike_ts := 5 } _ [1] 0 false
      (Dagger.new .Put [1] 5 100 none 0 0 0) (by decide) (by decide)).2 rfl⟩

/-- Claim C6: `acquire_pessimistic_lock` on a key already carrying a Dagger
of the same start timestamp fails with `LockTypeNotMatch` when the lock is
not Pessimistic; otherwise it overwrites the lock exactly when the new
`for_update_ts` is strictly larger (the stored `for_update_ts` never
decreases), and a request with a not-larger `for_update_ts` succeeds leaving
the buffered state unchanged. -/
theorem C6_acquire_pessimistic_lock_existing
    (txn : MvccTxn) (kd : KeyData) (key : Key) (primary : Bytes)
    (should_not_exist : Bool) (lock_ttl : Nat) (for_uf : TS)
    (need_value : Bool) (mct : TS) (d : Dagger)
    (hl : load_lock kd = some d) (hts : d.ts = txn.spacelike_ts) :
    (d.lock_type ≠ .Pessimistic →
      txn.acquire_pessimistic_lock kd key primary should_not_exist lock_ttl
          for_uf need_value mct
        = .error (.LockTypeNotMatch txn.spacelike_ts key false)) ∧
    (d.lock_type = .Pessimistic → need_value = false →
      (d.for_ufidelate_ts < for_uf →
        txn.acquire_pessimistic_lock kd key primary should_not_exist lock_ttl
            for_uf need_value mct
          = .ok (none, txn.put_lock key
              (Dagger.new .Pessimistic primary txn.spacelike_ts lock_ttl none
                for_uf 0 mct)) ∧
        (Dagger.new .Pessimistic primary txn.spacelike_ts lock_ttl none
            for_uf 0 mct).for_ufidelate_ts = for_uf) ∧
      (¬d.for_ufidelate_ts < for_uf →
        txn.acquire_pessimistic_lock kd key primary should_not_exist lock_ttl
            for_uf need_value mct
          = .ok (none, txn))) := by
  constructor
  · intro hne
    simp [MvccTxn.acquire_pessimistic_lock, hl, hts, hne]
  · intro hp hnv
    constructor
    · intro hlt
      refine ⟨?_, rfl⟩
      simp [MvccTxn.acquire_pessimistic_lock, hl, hts, hp, hnv, hlt,
        Bind.bind, Except.bind, Pure.pure, Except.pure, Dagger.new]
    · intro hge
      simp [MvccTxn.acquire_pessimistic_lock, hl, hts, hp, hnv, hge,
        Bind.bind, Except.bind, Pure.pure, Except.pure]

/-- Witness for C6 at a concrete existing pessimistic dagger. -/
theorem C6_acquire_pessimistic_lock_existing_witness :
    MvccTxn.acquire_pessimistic_lock { spacelike_ts := 5 }
        { dagger := some (Dagger.new .Pessimistic [1] 5 0 none 6 0 0) }
        [1] [1] false 0 6 false 0
      = .ok (none, { spacelike_ts := 5 }) ∧
    MvccTxn.acquire_pessimistic_lock { spacelike_ts := 5 }
        { dagger := some (Dagger.new .Put [1] 5 0 none 6 0 0) }
        [1] [1] false 0 6 false 0
      = .error (.LockTypeNotMatch 5 [1] false) :=
  ⟨((C6_acquire_pessimistic_lock_existing { spacelike_ts := 5 } _ [1] [1]
      false 0 6 false 0 (Dagger.new .Pessimistic [1] 5 0 none 6 0 0)
      (by decide) (by decide)).2 (by decide) rfl).2 (by decide),
   (C6_acquire_pessimistic_lock_existing { spacelike_ts := 5 } _ [1] [1]
      false 0 6 false 0 (Dagger.new .Put [1] 5 0 none 6 0 0)
      (by decide) (by decide)).1 (by decide)⟩

/-- Claim C5: a pessimistic prewrite of a key marked as already
pessimistically locked, when no Dagger exists for the key, fails with
`PessimisticLockNotFound` — unless pipelined pessimistic locking is enabled
and the key's newest Write entry (if any) has commit timestamp strictly below
the transaction's start timestamp, in which case the prewrite proceeds. -/
theorem C5_pessimistic_prewrite_missing_lock
    (txn : MvccTxn) (kd : KeyData) (mutation : Mutation) (primary : Bytes)
    (sk : Option (List Bytes)) (lock_ttl : Nat) (for_uf : TS)
    (txn_size : Nat) (mct : TS)
    (hl : load_lock kd = none) (hm : mutation.should_not_write = false) :
    (txn.pessimistic_prewrite kd mutation primary sk true lock_ttl for_uf
        txn_size mct false
      = .error (.PessimisticLockNotFound txn.spacelike_ts
          mutation.into_key_value.1)) ∧
    (∀ c w, seek_write kd.writes tsMax = some (c, w) → txn.spacelike_ts ≤ c →
      txn.pessimistic_prewrite kd mutation primary sk true lock_ttl for_uf
          txn_size mct true
        = .error (.PessimisticLockNotFound txn.spacelike_ts
            mutation.into_key_value.1)) ∧
    ((seek_write kd.writes tsMax = none ∨
        ∃ c w, seek_write kd.writes tsMax = some (c, w) ∧
          c < txn.spacelike_ts) →
      ∃ res, txn.pessimistic_prewrite kd mutation primary sk true lock_ttl
          for_uf txn_size mct true
        = .ok res) := by
  refine ⟨?_, ?_, ?_⟩
  · simp [MvccTxn.pessimistic_prewrite, hm, hl,
      MvccTxn.amlightlike_pessimistic_lock, Bind.bind, Except.bind]
  · intro c w hseek hle
    have hnlt : ¬c < txn.spacelike_ts := not_lt.mpr hle
    simp [MvccTxn.pessimistic_prewrite, hm, hl,
      MvccTxn.amlightlike_pessimistic_lock, hseek, hle, hnlt,
      Bind.bind, Except.bind]
  · rintro (hseek | ⟨c, w, hseek, hlt⟩)
    · exact ⟨(txn.check_extra_op kd mutation.into_key_value.1
          mutation.mutation_type none).prewrite_key_value
          mutation.into_key_value.1
          ((LockType.from_mutation mutation).getD .Put) primary sk
          mutation.into_key_value.2 lock_ttl for_uf txn_size mct,
        by simp [MvccTxn.pessimistic_prewrite, hm, hl,
          MvccTxn.amlightlike_pessimistic_lock, hseek,
          Bind.bind, Except.bind, Pure.pure, Except.pure]⟩
    · exact ⟨(txn.check_extra_op kd mutation.into_key_value.1
          mutation.mutation_type none).prewrite_key_value
          mutation.into_key_value.1
          ((LockType.from_mutation mutation).getD .Put) primary sk
          mutation.into_key_value.2 lock_ttl for_uf txn_size mct,
        by simp [MvccTxn.pessimistic_prewrite, hm, hl,
          MvccTxn.amlightlike_pessimistic_lock, hseek, not_le.mpr hlt,
          Bind.bind, Except.bind, Pure.pure, Except.pure]⟩

/-- Witness for C5: no dagger and a newest commit at the start timestamp
fails; no dagger and an older commit proceeds under pipelined locking. -/
theorem C5_pessimistic_prewrite_missing_lock_witness :
    MvccTxn.pessimistic_prewrite { spacelike_ts := 5 }
        { writes := [(5, samplePut 4)] }
        (.Put [1] [2]) [1] none true 0 5 0 0 true
      = .error (.PessimisticLockNotFound 5 [1]) ∧
    (∃ res, MvccTxn.pessimistic_prewrite { spacelike_ts := 5 }
        { writes := [(3, samplePut 2)] }
        (.Put [1] [2]) [1] none true 0 5 0 0 true
      = .ok res) :=
  ⟨(C5_pessimistic_prewrite_missing_lock { spacelike_ts := 5 } _ (.Put [1] [2])
      [1] none 0 5 0 0 (by decide) (by decide)).2.1 5 (samplePut 4)
      (by decide) (by decide),
   (C5_pessimistic_prewrite_missing_lock { spacelike_ts := 5 } _ (.Put [1] [2])
      [1] none 0 5 0 0 (by decide) (by decide)).2.2
      (Or.inr ⟨3, samplePut 2, by decide, by decide⟩)⟩

/-- A truncated gc run leaves no pending latest-delete and stops with the
buffered size at or above the cap. -/
theorem gcAux_incomplete_facts (key : Key) (sp : TS) :
    ∀ (entries : List (TS × Write)) (txn : MvccTxn) (ro : Bool)
      (ld : Option TS) (f dl : Nat) (t : MvccTxn) (ld2 : Option TS)
      (f2 d2 : Nat),
      MvccTxn.gcAux key sp txn entries ro ld f dl = (t, ld2, f2, d2, false) →
      ld2 = none ∧ MAX_TXN_WRITE_SIZE ≤ t.write_size := by
  intro entries
  induction entries with
  | nil =>
    intro txn ro ld f dl t ld2 f2 d2 h
    simp [MvccTxn.gcAux] at h
  | cons e rest ih =>
    intro txn ro ld f dl t ld2 f2 d2 h
    obtain ⟨commit, write⟩ := e
    simp only [MvccTxn.gcAux] at h
    by_cases hcap : MAX_TXN_WRITE_SIZE ≤ txn.write_size
    · rw [if_pos hcap] at h
      injection h with h1 h'
      injection h' with h2 h''
      exact ⟨h2.symm, h1 ▸ hcap⟩
    · rw [if_neg hcap] at h
      by_cases hro : ro = true
      · rw [if_pos hro] at h
        exact ih _ _ _ _ _ _ _ _ _ h
      · rw [if_neg hro] at h
        by_cases hsp : sp < commit
        · rw [if_pos hsp] at h
          exact ih _ _ _ _ _ _ _ _ _ h
        · rw [if_neg hsp] at h
          rcases hwt : write.write_type with _ | _ | _ | _ <;>
            rw [hwt] at h <;> exact ih _ _ _ _ _ _ _ _ _ h

/-- Claim C8: gc's buffered write size is capped at the 32 KiB constant —
once the accumulated size reaches `MAX_TXN_WRITE_SIZE` and another version
remains, the walk stops at once: nothing further is buffered (in particular
the latest Delete marker is not removed) and `is_completed` is reported
false; and whenever gc reports `is_completed = false`, the buffered size had
reached the cap. -/
theorem C8_gc_write_cap (txn : MvccTxn) (kd : KeyData) (key : Key) (sp : TS) :
    MAX_TXN_WRITE_SIZE = 32 * 1024 ∧
    (MAX_TXN_WRITE_SIZE ≤ txn.write_size → kd.writes ≠ [] →
      (txn.gc kd key sp).1.is_completed = false ∧
      (txn.gc kd key sp).2.modifies = txn.modifies ∧
      (txn.gc kd key sp).2.write_size = txn.write_size ∧
      (txn.gc kd key sp).1.found_versions = 1) ∧
    ((txn.gc kd key sp).1.is_completed = false →
      MAX_TXN_WRITE_SIZE ≤ (txn.gc kd key sp).2.write_size) := by
  refine ⟨rfl, ?_, ?_⟩
  · intro hcap hne
    obtain ⟨⟨commit, write⟩, rest, hw⟩ : ∃ e r, kd.writes = e :: r := by
      cases hkd : kd.writes with
      | nil => exact absurd hkd hne
      | cons e r => exact ⟨e, r, rfl⟩
    simp [MvccTxn.gc, MvccTxn.gcAux, hw, if_pos hcap]
  · intro hinc
    rcases hgc : MvccTxn.gcAux key sp txn kd.writes false none 0 0 with
      ⟨t, ld2, f2, d2, b⟩
    have hfacts : b = false → ld2 = none ∧
        MAX_TXN_WRITE_SIZE ≤ t.write_size := fun hb =>
      gcAux_incomplete_facts key sp kd.writes txn false none 0 0 t ld2
        f2 d2 (hb ▸ hgc)
    rw [MvccTxn.gc, hgc] at hinc ⊢
    cases b with
    | false =>
      obtain ⟨hld, hsz⟩ := hfacts rfl
      rw [hld] at hinc ⊢
      simpa using hsz
    | true => simp at hinc

/-- The gc walk only appends to the buffered batch. -/
theorem gcAux_modifies_mono (key : Key) (sp : TS) :
    ∀ (entries : List (TS × Write)) (txn : MvccTxn) (ro : Bool)
      (ld : Option TS) (f dl : Nat) (t : MvccTxn) (ld2 : Option TS)
      (f2 d2 : Nat) (b : Bool),
      MvccTxn.gcAux key sp txn entries ro ld f dl = (t, ld2, f2, d2, b) →
      ∃ l, t.modifies = txn.modifies ++ l := by
  intro entries
  induction entries with
  | nil =>
    intro txn ro ld f dl t ld2 f2 d2 b h
    simp only [MvccTxn.gcAux] at h
    injection h with h1 _
    exact ⟨[], by simp [← h1]⟩
  | cons e rest ih =>
    intro txn ro ld f dl t ld2 f2 d2 b h
    obtain ⟨commit, write⟩ := e
    simp only [MvccTxn.gcAux] at h
    by_cases hcap : MAX_TXN_WRITE_SIZE ≤ txn.write_size
    · rw [if_pos hcap] at h
      injection h with h1 _
      exact ⟨[], by simp [← h1]⟩
    · rw [if_neg hcap] at h
      by_cases hro : ro = true
      · rw [if_pos hro] at h
        by_cases hpv : write.write_type = .Put ∧ write.short_value = none
        · rw [if_pos hpv] at h
          obtain ⟨l, hl⟩ := ih _ _ _ _ _ _ _ _ _ _ h
          exact ⟨[.delWrite key commit, .delDefault key write.spacelike_ts]
            ++ l, by
            simp [hl, MvccTxn.delete_write, MvccTxn.delete_value]⟩
        · rw [if_neg hpv] at h
          obtain ⟨l, hl⟩ := ih _ _ _ _ _ _ _ _ _ _ h
          exact ⟨[.delWrite key commit] ++ l, by
            simp [hl, MvccTxn.delete_write]⟩
      · rw [if_neg hro] at h
        by_cases hsp : sp < commit
        · rw [if_pos hsp] at h
          exact ih _ _ _ _ _ _ _ _ _ _ h
        · rw [if_neg hsp] at h
          rcases hwt : write.write_type with _ | _ | _ | _ <;> rw [hwt] at h
          · exact ih _ _ _ _ _ _ _ _ _ _ h
          · exact ih _ _ _ _ _ _ _ _ _ _ h
          · obtain ⟨l, hl⟩ := ih _ _ _ _ _ _ _ _ _ _ h
            exact ⟨[.delWrite key commit] ++ l, by
              simp [hl, MvccTxn.delete_write]⟩
          · obtain ⟨l, hl⟩ := ih _ _ _ _ _ _ _ _ _ _ h
            exact ⟨[.delWrite key commit] ++ l, by
              simp [hl, MvccTxn.delete_write]⟩

/-- The keep point of the gc walk, as the spec describes it: the first Put or
Delete entry (newest→oldest) with commit timestamp at or below the safe
point.  A specification-side characterization used to state claim C2. -/
def gcKeepPoint : List (TS × Write) → TS → Option (TS × Write)
  | [], _ => none
  | (c, w) :: rest, sp =>
    if c ≤ sp ∧ (w.write_type = .Put ∨ w.write_type = .Delete) then some (c, w)
    else gcKeepPoint rest sp

/-- The keep point lies at or below the safe point. -/
theorem gcKeepPoint_le :
    ∀ (l : List (TS × Write)) (sp kc : TS) (kw : Write),
      gcKeepPoint l sp = some (kc, kw) → kc ≤ sp := by
  intro l
  induction l with
  | nil => intro sp kc kw h; simp [gcKeepPoint] at h
  | cons e rest ih =>
    intro sp kc kw h
    obtain ⟨c, w⟩ := e
    rw [gcKeepPoint] at h
    by_cases hc : c ≤ sp ∧ (w.write_type = .Put ∨ w.write_type = .Delete)
    · rw [if_pos hc] at h
      injection h with h
      injection h with h1 _
      exact h1 ▸ hc.1
    · rw [if_neg hc] at h
      exact ih sp kc kw h

/-- The keep point is an entry of the list. -/
theorem gcKeepPoint_mem :
    ∀ (l : List (TS × Write)) (sp kc : TS) (kw : Write),
      gcKeepPoint l sp = some (kc, kw) → (kc, kw) ∈ l := by
  intro l
  induction l with
  | nil => intro sp kc kw h; simp [gcKeepPoint] at h
  | cons e rest ih =>
    intro sp kc kw h
    obtain ⟨c, w⟩ := e
    rw [gcKeepPoint] at h
    by_cases hc : c ≤ sp ∧ (w.write_type = .Put ∨ w.write_type = .Delete)
    · rw [if_pos hc] at h
      injection h with h
      exact h ▸ List.mem_cons_self _ _
    · rw [if_neg hc] at h
      exact List.mem_cons_of_mem _ (ih sp kc kw h)

/-- Destructuring a strictly descending version list. -/
theorem sortedDesc_cons {c0 : TS} {w0 : Write} {rest : List (TS × Write)}
    (h : sortedDesc ((c0, w0) :: rest)) :
    sortedDesc rest ∧ ∀ c w, (c, w) ∈ rest → c < c0 := by
  rw [sortedDesc, List.pairwise_cons] at h
  exact ⟨h.2, fun c w hm => h.1 (c, w) hm⟩

/-- Once the gc walk is past the keep point (`remove_older` set), a completed
run deletes every remaining entry (with its Default value for an uninlined
Put) and carries `latest_delete` through unchanged. -/
theorem gcAux_remove_older (key : Key) (sp : TS) :
    ∀ (entries : List (TS × Write)) (txn : MvccTxn) (ld : Option TS)
      (f dl : Nat) (t : MvccTxn) (ld2 : Option TS) (f2 d2 : Nat),
      MvccTxn.gcAux key sp txn entries true ld f dl = (t, ld2, f2, d2, true) →
      ld2 = ld ∧
      ∀ c w, (c, w) ∈ entries →
        Modify.delWrite key c ∈ t.modifies ∧
        (w.write_type = .Put ∧ w.short_value = none →
          Modify.delDefault key w.spacelike_ts ∈ t.modifies) := by
  intro entries
  induction entries with
  | nil =>
    intro txn ld f dl t ld2 f2 d2 h
    simp only [MvccTxn.gcAux] at h
    injection h with h1 h
    injection h with h2 _
    exact ⟨h2.symm, by simp⟩
  | cons e rest ih =>
    intro txn ld f dl t ld2 f2 d2 h
    obtain ⟨commit, write⟩ := e
    simp only [MvccTxn.gcAux] at h
    by_cases hcap : MAX_TXN_WRITE_SIZE ≤ txn.write_size
    · rw [if_pos hcap] at h
      injection h with _ h
      injection h with _ h
      injection h with _ h
      injection h with _ h
      cases h
    · rw [if_neg hcap, if_pos trivial] at h
      by_cases hpv : write.write_type = .Put ∧ write.short_value = none
      · rw [if_pos hpv] at h
        obtain ⟨hld, hmem⟩ := ih _ _ _ _ _ _ _ _ h
        obtain ⟨l, hl⟩ := gcAux_modifies_mono key sp rest _ _ _ _ _ _ _ _ _ _ h
        refine ⟨hld, fun c w hm => ?_⟩
        rcases List.mem_cons.mp hm with he | hm2
        · injection he with he1 he2
          subst he1; subst he2
          constructor
          · rw [hl]
            simp [MvccTxn.delete_write, MvccTxn.delete_value]
          · intro _
            rw [hl]
            simp [MvccTxn.delete_write, MvccTxn.delete_value]
        · exact hmem c w hm2
      · rw [if_neg hpv] at h
        obtain ⟨hld, hmem⟩ := ih _ _ _ _ _ _ _ _ h
        obtain ⟨l, hl⟩ := gcAux_modifies_mono key sp rest _ _ _ _ _ _ _ _ _ _ h
        refine ⟨hld, fun c w hm => ?_⟩
        rcases List.mem_cons.mp hm with he | hm2
        · injection he with he1 he2
          subst he1; subst he2
          exact ⟨by rw [hl]; simp [MvccTxn.delete_write],
            fun hx => absurd hx hpv⟩
        · exact hmem c w hm2

/-- A completed gc walk that has not yet passed the keep point deletes every
entry strictly older than the keep point, and ends with `latest_delete` set
to the keep point's commit timestamp when the keep point is a Delete. -/
theorem gcAux_before_keep (key : Key) (sp : TS) :
    ∀ (entries : List (TS × Write)) (txn : MvccTxn) (ld : Option TS)
      (f dl : Nat) (t : MvccTxn) (ld2 : Option TS) (f2 d2 : Nat)
      (kc : TS) (kw : Write),
      sortedDesc entries →
      gcKeepPoint entries sp = some (kc, kw) →
      MvccTxn.gcAux key sp txn entries false ld f dl = (t, ld2, f2, d2, true) →
      (∀ c w, (c, w) ∈ entries → c < kc →
        Modify.delWrite key c ∈ t.modifies ∧
        (w.write_type = .Put ∧ w.short_value = none →
          Modify.delDefault key w.spacelike_ts ∈ t.modifies)) ∧
      (kw.write_type = .Delete → ld2 = some kc) := by
  intro entries
  induction entries with
  | nil =>
    intro txn ld f dl t ld2 f2 d2 kc kw _ hk _
    simp [gcKeepPoint] at hk
  | cons e rest ih =>
    intro txn ld f dl t ld2 f2 d2 kc kw hs hk h
    obtain ⟨c0, w0⟩ := e
    obtain ⟨hs2, hlt⟩ := sortedDesc_cons hs
    simp only [MvccTxn.gcAux] at h
    by_cases hcap : MAX_TXN_WRITE_SIZE ≤ txn.write_size
    · rw [if_pos hcap] at h
      injection h with _ h
      injection h with _ h
      injection h with _ h
      injection h with _ h
      cases h
    · rw [if_neg hcap, if_neg Bool.false_ne_true] at h
      rw [gcKeepPoint] at hk
      by_cases hsp : sp < c0
      · rw [if_pos hsp] at h
        rw [if_neg (fun hx => absurd hx.1 (not_le.mpr hsp))] at hk
        obtain ⟨hmem, hld⟩ := ih _ _ _ _ _ _ _ _ _ _ hs2 hk h
        refine ⟨fun c w hm hck => ?_, hld⟩
        rcases List.mem_cons.mp hm with he | hm2
        · injection he with he1 _
          subst he1
          exact absurd hck (not_lt.mpr (le_of_lt
            (lt_of_le_of_lt (gcKeepPoint_le rest sp kc kw hk) hsp)))
        · exact hmem c w hm2 hck
      · rw [if_neg hsp] at h
        rcases hwt : w0.write_type with _ | _ | _ | _
        · -- Put: this is the keep point
          rw [if_pos ⟨not_lt.mp hsp, Or.inl hwt⟩] at hk
          injection hk with hk
          injection hk with hk1 hk2
          subst hk1; subst hk2
          rw [hwt] at h
          simp only [hwt] at h
          obtain ⟨hld, hmem⟩ := gcAux_remove_older key sp rest _ _ _ _ _ _ _ _ h
          refine ⟨fun c w hm hck => ?_, fun hx => by rw [hwt] at hx; cases hx⟩
          rcases List.mem_cons.mp hm with he | hm2
          · injection he with he1 _
            subst he1
            exact absurd hck (lt_irrefl _)
          · exact hmem c w hm2
        · -- Delete: this is the keep point
          rw [if_pos ⟨not_lt.mp hsp, Or.inr hwt⟩] at hk
          injection hk with hk
          injection hk with hk1 hk2
          subst hk1; subst hk2
          rw [hwt] at h
          simp only [hwt] at h
          obtain ⟨hld, hmem⟩ := gcAux_remove_older key sp rest _ _ _ _ _ _ _ _ h
          refine ⟨fun c w hm hck => ?_, fun _ => hld⟩
          rcases List.mem_cons.mp hm with he | hm2
          · injection he with he1 _
            subst he1
            exact absurd hck (lt_irrefl _)
          · exact hmem c w hm2
        · -- Dagger: deleted in place, keep point further down
          rw [if_neg (fun hx => by rcases hx.2 with h2 | h2 <;>
            rw [hwt] at h2 <;> cases h2)] at hk
          rw [hwt] at h
          simp only [hwt] at h
          obtain ⟨hmem, hld⟩ := ih _ _ _ _ _ _ _ _ _ _ hs2 hk h
          refine ⟨fun c w hm hck => ?_, hld⟩
          rcases List.mem_cons.mp hm with he | hm2
          · injection he with he1 _
            subst he1
            have hkc := hlt kc kw (gcKeepPoint_mem rest sp kc kw hk)
            exact absurd hck (not_lt.mpr (le_of_lt hkc))
          · exact hmem c w hm2 hck
        · -- Rollback: deleted in place, keep point further down
          rw [if_neg (fun hx => by rcases hx.2 with h2 | h2 <;>
            rw [hwt] at h2 <;> cases h2)] at hk
          rw [hwt] at h
          simp only [hwt] at h
          obtain ⟨hmem, hld⟩ := ih _ _ _ _ _ _ _ _ _ _ hs2 hk h
          refine ⟨fun c w hm hck => ?_, hld⟩
          rcases List.mem_cons.mp hm with he | hm2
          · injection he with he1 _
            subst he1
            have hkc := hlt kc kw (gcKeepPoint_mem rest sp kc kw hk)
            exact absurd hck (not_lt.mpr (le_of_lt hkc))
          · exact hmem c w hm2 hck

/-- A sample committed Delete record. -/
def sampleDelete (spacelike_ts : TS) : Write :=
  { write_type := .Delete, spacelike_ts := spacelike_ts }

/-- The version history of the spec's gc scenario: Put committed at 10, Put
committed at 20, Delete committed at 30, Put committed at 40 (descending). -/
def gcScenarioWrites : List (TS × Write) :=
  [(40, samplePut 35), (30, sampleDelete 25), (20, samplePut 15),
   (10, samplePut 5)]

/-- Claim C2: gc walks the Write entries newest→oldest; the first Put/Delete
with commit timestamp at or below the safe point is the keep point; every
strictly older entry is deleted (with its Default value when it is an
uninlined Put), and a keep point of type Delete is deleted as well.  On the
spec's scenario (safe_point 30 over commits 10, 20, 30, 40) exactly the
entries at commits 10, 20 and 30 are deleted and only commit 40's Put
remains. -/
theorem C2_gc_keep_point (txn : MvccTxn) (kd : KeyData) (key : Key) (sp : TS)
    (hs : sortedDesc kd.writes)
    (hc : (txn.gc kd key sp).1.is_completed = true) :
    (∀ kc kw, gcKeepPoint kd.writes sp = some (kc, kw) →
      (∀ c w, (c, w) ∈ kd.writes → c < kc →
        Modify.delWrite key c ∈ (txn.gc kd key sp).2.modifies ∧
        (w.write_type = .Put ∧ w.short_value = none →
          Modify.delDefault key w.spacelike_ts ∈ (txn.gc kd key sp).2.modifies)) ∧
      (kw.write_type = .Delete →
        Modify.delWrite key kc ∈ (txn.gc kd key sp).2.modifies)) ∧
    ((MvccTxn.gc { spacelike_ts := 0 } { writes := gcScenarioWrites } [1]
        30).2.modifies
      = [.delWrite [1] 20, .delWrite [1] 10, .delWrite [1] 30] ∧
      (MvccTxn.gc { spacelike_ts := 0 } { writes := gcScenarioWrites } [1]
        30).1
        = { found_versions := 4, deleted_versions := 3,
            is_completed := true } ∧
      (applyModifies [1] { writes := gcScenarioWrites }
        (MvccTxn.gc { spacelike_ts := 0 } { writes := gcScenarioWrites } [1]
          30).2.modifies).writes
        = [(40, samplePut 35)]) := by
  refine ⟨?_, by decide, by decide, by decide⟩
  intro kc kw hk
  rcases hgc : MvccTxn.gcAux key sp txn kd.writes false none 0 0 with
    ⟨t, ld2, f2, d2, b⟩
  have hb : b = true := by
    rw [MvccTxn.gc, hgc] at hc
    rcases ld2 with _ | c2 <;> simpa using hc
  subst hb
  obtain ⟨hmem, hld⟩ := gcAux_before_keep key sp kd.writes txn none 0 0 t ld2
    f2 d2 kc kw hs hk hgc
  have hfinal : ∃ l, (txn.gc kd key sp).2.modifies = t.modifies ++ l := by
    rw [MvccTxn.gc, hgc]
    rcases ld2 with _ | c2
    · exact ⟨[], by simp⟩
    · exact ⟨[.delWrite key c2], by simp [MvccTxn.delete_write]⟩
  obtain ⟨l, hl⟩ := hfinal
  constructor
  · intro c w hm hck
    obtain ⟨h1, h2⟩ := hmem c w hm hck
    exact ⟨hl ▸ List.mem_append_left l h1,
      fun hx => hl ▸ List.mem_append_left l (h2 hx)⟩
  · intro hdel
    have hld2 := hld hdel
    rw [MvccTxn.gc, hgc] at hl ⊢
    rw [hld2] at hl ⊢
    simp [MvccTxn.delete_write]

/-- Witness for C2: on the spec's gc scenario the entry at commit 10 — an
uninlined-free Put strictly older than the keep point at commit 30 — is
deleted. -/
theorem C2_gc_keep_point_witness :
    Modify.delWrite [1] 10 ∈
      (MvccTxn.gc { spacelike_ts := 0 } { writes := gcScenarioWrites } [1]
        30).2.modifies :=
  (((C2_gc_keep_point { spacelike_ts := 0 } { writes := gcScenarioWrites }
      [1] 30 (by decide) (by decide)).1 30 (sampleDelete 25) (by decide)).1
    10 (samplePut 5) (by decide) (by decide)).1

/-- Witness for C8: a transaction whose buffer already reached the cap stops
a gc over a one-entry history immediately. -/
theorem C8_gc_write_cap_witness :
    (MvccTxn.gc { spacelike_ts := 0, write_size := 32 * 1024 }
        { writes := [(3, samplePut 2)] } [1] 10).1.is_completed = false ∧
    (MvccTxn.gc { spacelike_ts := 0, write_size := 32 * 1024 }
        { writes := [(3, samplePut 2)] } [1] 10).1.found_versions = 1 :=
  ⟨((C8_gc_write_cap { spacelike_ts := 0, write_size := 32 * 1024 }
      { writes := [(3, samplePut 2)] } [1] 10).2.1 (by decide) (by decide)).1,
   ((C8_gc_write_cap { spacelike_ts := 0, write_size := 32 * 1024 }
      { writes := [(3, samplePut 2)] } [1] 10).2.1 (by decide)
      (by decide)).2.2.2⟩

/-- Counterexample to claim C7 as stated: the DeltaEntry policy's
`handle_lock` never consults `from_ts` — on a delta scan over the range
`(from_ts := 5, ts := 10]` it emits a pending lock whose start timestamp 3
lies outside that range. -/
theorem C7_delta_entry_range_counterexample :
    delta_handle_lock {} [1] (Dagger.new .Dagger [1] 3 0 none 0 0 0) 10 false
      = .ok (.Return (.Prewrite ([], [])
          ([1], Dagger.new .Dagger [1] 3 0 none 0 0 0) none)) ∧
    ¬(5 < (Dagger.new .Dagger [1] 3 0 none 0 0 0).ts ∧
      (Dagger.new .Dagger [1] 3 0 none 0 0 0).ts ≤ 10) := by
  exact ⟨by decide, by decide⟩

/-- Claim C7 as amended: the DeltaEntry policy emits a pending lock exactly
when its start timestamp is at most the scan timestamp — the `(from_ts, ts]`
lower bound is not applied to locks — while committed entries are emitted
exactly for Put/Delete versions with commit timestamp in `(from_ts, ts]`. -/
theorem C7_delta_entry_range_amended
    (kd : KeyData) (key : Key) (dagger : Dagger) (cfg_ts from_ts : TS)
    (entries : List (TS × Write))
    (hdef : dagger.lock_type = .Put ∧ dagger.short_value = none →
      (load_default kd dagger.ts).isSome)
    (hs : sortedDesc entries)
    (hb : ∀ e ∈ entries, e.1 ≤ cfg_ts) :
    ((∃ out, delta_handle_lock kd key dagger cfg_ts false = .ok (.Return out))
      ↔ dagger.ts ≤ cfg_ts) ∧
    (∀ dflt k2 c w ov,
      delta_handle_write kd key from_ts false entries
          = .ok (.Return (.Commit dflt ((k2, c), w) ov)) →
      from_ts < c ∧ c ≤ cfg_ts ∧ (c, w) ∈ entries ∧
        (w.write_type = .Put ∨ w.write_type = .Delete)) ∧
    (∀ k2, delta_handle_write kd key from_ts false entries = .ok (.Skip k2) →
      ∀ c w, (c, w) ∈ entries →
        (w.write_type = .Put ∨ w.write_type = .Delete) → c ≤ from_ts) := by
  refine ⟨?_, ?_, ?_⟩
  · constructor
    · rintro ⟨out, h⟩
      by_contra hgt
      rw [delta_handle_lock, if_pos (not_le.mp hgt)] at h
      cases h
    · intro hle
      rw [delta_handle_lock, if_neg (not_lt.mpr hle)]
      by_cases hput : dagger.lock_type = .Put ∧ dagger.short_value = none
      · obtain ⟨v, hv⟩ := Option.isSome_iff_exists.mp (hdef hput)
        rw [if_pos hput, hv]
        exact ⟨.Prewrite (key, v) (key, dagger) none,
          by simp [Bind.bind, Except.bind, Pure.pure, Except.pure]⟩
      · rw [if_neg hput]
        exact ⟨.Prewrite ([], []) (key, dagger) none,
          by simp [Bind.bind, Except.bind, Pure.pure, Except.pure]⟩
  · clear hdef
    induction entries with
    | nil =>
      intro dflt k2 c w ov h
      rw [delta_handle_write] at h
      simp at h
    | cons e rest ih =>
      intro dflt k2 c w ov h
      obtain ⟨c0, w0⟩ := e
      obtain ⟨hs2, _⟩ := sortedDesc_cons hs
      rw [delta_handle_write] at h
      by_cases hle : c0 ≤ from_ts
      · rw [if_pos hle] at h; simp at h
      · rw [if_neg hle] at h
        by_cases hskip : w0.write_type = .Rollback ∨ w0.write_type = .Dagger
        · rw [if_pos hskip] at h
          obtain ⟨h1, h2, h3, h4⟩ := ih hs2
            (fun e he => hb e (List.mem_cons_of_mem _ he)) dflt k2 c w ov h
          exact ⟨h1, h2, List.mem_cons_of_mem _ h3, h4⟩
        · rw [if_neg hskip] at h
          by_cases hput : w0.write_type = .Put ∧ w0.short_value = none
          · rw [if_pos hput] at h
            cases hv : load_default kd w0.spacelike_ts with
            | none =>
              rw [hv] at h
              simp [Bind.bind, Except.bind] at h
            | some v =>
              rw [hv] at h
              simp only [Bind.bind, Except.bind, Pure.pure, Except.pure,
                Bool.false_eq_true, false_and, if_false, ite_false,
                Except.ok.injEq, HandleRes.Return.injEq, TxnEntry.Commit.injEq,
                Prod.mk.injEq] at h
              obtain ⟨hd, ⟨⟨hk2, hc⟩, hw⟩, hov⟩ := h
              subst hc; subst hw
              refine ⟨not_le.mp hle, hb (c0, w0) (List.mem_cons_self _ _),
                List.mem_cons_self _ _, ?_⟩
              rcases hwt : w0.write_type with _ | _ | _ | _
              · exact Or.inl rfl
              · exact Or.inr rfl
              · exact absurd (Or.inr hwt) hskip
              · exact absurd (Or.inl hwt) hskip
          · rw [if_neg hput] at h
            simp only [Bind.bind, Except.bind, Pure.pure, Except.pure,
              Bool.false_eq_true, false_and, if_false, ite_false,
              Except.ok.injEq, HandleRes.Return.injEq, TxnEntry.Commit.injEq,
              Prod.mk.injEq] at h
            obtain ⟨hd, ⟨⟨hk2, hc⟩, hw⟩, hov⟩ := h
            subst hc; subst hw
            refine ⟨not_le.mp hle, hb (c0, w0) (List.mem_cons_self _ _),
              List.mem_cons_self _ _, ?_⟩
            rcases hwt : w0.write_type with _ | _ | _ | _
            · exact Or.inl rfl
            · exact Or.inr rfl
            · exact absurd (Or.inr hwt) hskip
            · exact absurd (Or.inl hwt) hskip
  · clear hdef hb
    induction entries with
    | nil => intro k2 _ c w hm; cases hm
    | cons e rest ih =>
      intro k2 h c w hm hwt
      obtain ⟨c0, w0⟩ := e
      obtain ⟨hs2, hlt⟩ := sortedDesc_cons hs
      rw [delta_handle_write] at h
      by_cases hle : c0 ≤ from_ts
      · rcases List.mem_cons.mp hm with he | hm2
        · injection he with he1 _
          subst he1
          exact hle
        · exact le_trans (le_of_lt (hlt c w hm2)) hle
      · rw [if_neg hle] at h
        by_cases hskip : w0.write_type = .Rollback ∨ w0.write_type = .Dagger
        · rw [if_pos hskip] at h
          rcases List.mem_cons.mp hm with he | hm2
          · injection he with he1 he2
            subst he1; subst he2
            rcases hwt with h1 | h1 <;> rcases hskip with h2 | h2 <;>
              rw [h1] at h2 <;> cases h2
          · exact ih hs2 k2 h c w hm2 hwt
        · rw [if_neg hskip] at h
          by_cases hput : w0.write_type = .Put ∧ w0.short_value = none
          · rw [if_pos hput] at h
            cases hv : load_default kd w0.spacelike_ts with
            | none =>
              rw [hv] at h
              simp [Bind.bind, Except.bind] at h
            | some v =>
              rw [hv] at h
              simp [Bind.bind, Except.bind, Pure.pure, Except.pure] at h
          · rw [if_neg hput] at h
            simp [Bind.bind, Except.bind, Pure.pure, Except.pure] at h

/-- Witness for the amended C7: a lock three ticks below the scan timestamp
is emitted, and a commit at timestamp 7 within `(5, 10]` is reported in
range. -/
theorem C7_delta_entry_range_amended_witness :
    (∃ out, delta_handle_lock {} [1] (Dagger.new .Dagger [1] 7 0 none 0 0 0)
      10 false = .ok (.Return out)) ∧
    (5 < 7 ∧ 7 ≤ 10 ∧ ((7 : TS), samplePut 6) ∈ [((7 : TS), samplePut 6)] ∧
      ((samplePut 6).write_type = .Put ∨
        (samplePut 6).write_type = .Delete)) :=
  ⟨(C7_delta_entry_range_amended {} [1] (Dagger.new .Dagger [1] 7 0 none 0 0 0)
      10 5 [((7 : TS), samplePut 6)] (by decide) (by decide)
      (by decide)).1.mpr (by decide),
   (C7_delta_entry_range_amended {} [1] (Dagger.new .Dagger [1] 7 0 none 0 0 0)
      10 5 [((7 : TS), samplePut 6)] (by decide) (by decide)
      (by decide)).2.1 ([], []) [1] 7 (samplePut 6) none (by decide)⟩

/-- When no commit record exists for the start timestamp, any entry
`seek_write` finds at that timestamp lies strictly below it (so in
particular a collapsed previous rollback never sits at the start
timestamp). -/
theorem seek_write_lt_of_notfound :
    ∀ (l : List (TS × Write)) (s : TS),
      get_txn_commit_record l s = .NotFound none →
      ∀ c w, seek_write l s = some (c, w) → c < s := by
  intro l
  induction l with
  | nil => intro s _ c w hsw; simp [seek_write] at hsw
  | cons e rest ih =>
    intro s hnf c w hsw
    obtain ⟨c0, w0⟩ := e
    rw [get_txn_commit_record] at hnf
    rw [seek_write] at hsw
    by_cases hcs : c0 < s
    · rw [if_pos (le_of_lt hcs)] at hsw
      injection hsw with hsw
      injection hsw with h1 _
      exact h1 ▸ hcs
    · rw [if_neg hcs] at hnf
      by_cases hst : w0.spacelike_ts = s
      · rw [if_pos hst] at hnf
        exact TxnCommitRecord.noConfusion hnf
      · rw [if_neg hst] at hnf
        by_cases heq : c0 = s
        · rw [if_pos heq] at hnf
          by_cases hov : w0.has_overlapped_rollback = true
          · rw [if_pos hov] at hnf
            exact TxnCommitRecord.noConfusion hnf
          · rw [if_neg hov] at hnf
            injection hnf with h2
            exact Option.noConfusion h2
        · rw [if_neg heq] at hnf
          have hnle : ¬c0 ≤ s := fun hle => hcs (lt_of_le_of_ne hle heq)
          rw [if_neg hnle] at hsw
          exact ih s hnf c w hsw

/-- Inserting the rollback record of the start timestamp into a version
history that holds no commit record for it makes `get_txn_commit_record`
report exactly that rollback as a `SingleRecord`. -/
theorem get_txn_commit_record_insert :
    ∀ (l : List (TS × Write)) (s : TS) (rb : Write),
      get_txn_commit_record l s = .NotFound none →
      rb.spacelike_ts = s →
      get_txn_commit_record (insertWrite l s rb) s = .SingleRecord s rb := by
  intro l
  induction l with
  | nil =>
    intro s rb _ hrb
    rw [insertWrite, get_txn_commit_record]
    rw [if_neg (lt_irrefl s), if_pos hrb]
  | cons e rest ih =>
    intro s rb hnf hrb
    obtain ⟨c0, w0⟩ := e
    rw [get_txn_commit_record] at hnf
    rw [insertWrite]
    by_cases hlt : s < c0
    · rw [if_pos hlt]
      have hcs : ¬c0 < s := not_lt.mpr (le_of_lt hlt)
      rw [if_neg hcs] at hnf
      by_cases hst : w0.spacelike_ts = s
      · rw [if_pos hst] at hnf
        exact absurd hnf (fun h => TxnCommitRecord.noConfusion h)
      · rw [if_neg hst] at hnf
        have hne : c0 ≠ s := (ne_of_gt hlt)
        rw [if_neg hne] at hnf
        rw [get_txn_commit_record, if_neg hcs, if_neg hst, if_neg hne]
        exact ih s rb hnf hrb
    · rw [if_neg hlt]
      by_cases heq : s = c0
      · rw [if_pos heq, get_txn_commit_record]
        rw [if_neg (lt_irrefl s), if_pos hrb]
      · rw [if_neg heq, get_txn_commit_record]
        rw [if_neg (lt_irrefl s), if_pos hrb]

/-- Removing a Write entry at a commit timestamp other than the start
timestamp does not disturb a `SingleRecord` classification at the start
timestamp. -/
theorem get_txn_commit_record_remove :
    ∀ (l : List (TS × Write)) (s c2 : TS) (rb : Write),
      get_txn_commit_record l s = .SingleRecord s rb →
      c2 ≠ s →
      get_txn_commit_record (removeWrite l c2) s = .SingleRecord s rb := by
  intro l
  induction l with
  | nil =>
    intro s c2 rb h _
    rw [get_txn_commit_record] at h
    exact TxnCommitRecord.noConfusion h
  | cons e rest ih =>
    intro s c2 rb h hne
    obtain ⟨c0, w0⟩ := e
    rw [get_txn_commit_record] at h
    by_cases hcs : c0 < s
    · rw [if_pos hcs] at h
      exact TxnCommitRecord.noConfusion h
    · rw [if_neg hcs] at h
      by_cases hst : w0.spacelike_ts = s
      · rw [if_pos hst] at h
        injection h with h1 h2
        subst h1; subst h2
        have hkeep : c0 ≠ c2 := fun hx => hne (hx ▸ rfl)
        rw [removeWrite, List.filter_cons]
        rw [if_pos (by simpa using hkeep)]
        rw [get_txn_commit_record, if_neg hcs, if_pos hst]
      · rw [if_neg hst] at h
        by_cases heq : c0 = s
        · rw [if_pos heq] at h
          by_cases hov : w0.has_overlapped_rollback = true
          · rw [if_pos hov] at h
            exact TxnCommitRecord.noConfusion h
          · rw [if_neg hov] at h
            exact TxnCommitRecord.noConfusion h
        · rw [if_neg heq] at h
          rw [removeWrite, List.filter_cons]
          by_cases hc2 : c0 = c2
          · rw [if_neg (by simpa using hc2)]
            exact ih s c2 rb h hne
          · rw [if_pos (by simpa using hc2)]
            rw [get_txn_commit_record, if_neg hcs, if_neg hst, if_neg heq]
            exact ih s c2 rb h hne

/-- A rollback through `cleanup(current_ts = 0)` of a dagger owned by the
calling transaction, over a history holding no commit record for the start
timestamp, succeeds releasing the dagger; applying its buffered batch leaves
no dagger and a version history whose commit record for the start timestamp
is exactly the freshly written Rollback. -/
theorem rollback_fresh (txn1 : MvccTxn) (kd : KeyData) (key : Key)
    (d : Dagger) (hm : txn1.modifies = [])
    (hl : kd.dagger = some d) (hd : d.ts = txn1.spacelike_ts)
    (hnf : get_txn_commit_record kd.writes txn1.spacelike_ts
      = .NotFound none) :
    ∃ rel txnr, txn1.rollback kd key = .ok (some rel, txnr) ∧
      (applyModifies key kd txnr.modifies).dagger = none ∧
      ∃ p, get_txn_commit_record
          (applyModifies key kd txnr.modifies).writes txn1.spacelike_ts
        = .SingleRecord txn1.spacelike_ts
            (Write.new_rollback txn1.spacelike_ts p) := by
  have hzero : ¬(¬TS.is_zero 0 = true ∧
      TS.physical 0 ≤ d.ts.physical + d.ttl) := by simp [TS.is_zero]
  by_cases hsv : d.short_value = none ∧ d.lock_type = LockType.Put
  · by_cases hcr : txn1.collapse_rollback = true
    · cases hseek : seek_write kd.writes txn1.spacelike_ts with
      | some cw =>
        obtain ⟨c2, w2⟩ := cw
        by_cases hrw : w2.write_type = WriteType.Rollback ∧
            ¬w2.is_protected = true
        · have heq : txn1.rollback kd key
              = .ok (some (ReleasedLock.new key (!d.for_ufidelate_ts.is_zero)),
                ((((txn1.delete_value key d.ts).put_write key txn1.spacelike_ts
                  (Write.new_rollback txn1.spacelike_ts
                    ((!d.for_ufidelate_ts.is_zero) && (key == d.primary)))).delete_write
                  key c2).unlock_key key (!d.for_ufidelate_ts.is_zero)).2) := by
            rw [MvccTxn.rollback]
            simp only [MvccTxn.cleanup, load_lock, hl]
            rw [if_pos hd, if_neg hzero]
            simp only [MvccTxn.check_write_and_rollback_lock, hnf,
              TxnCommitRecord.unwrap_none, MvccTxn.rollback_lock,
              MvccTxn.collapse_prev_rollback, make_rollback,
              MvccTxn.delete_value,
              MvccTxn.put_write, MvccTxn.delete_write, MvccTxn.unlock_key, if_pos hsv, hseek, if_pos hcr, if_pos hrw]
          refine ⟨_, _, heq, ?_, ?_⟩
          · simp [hm, applyModifies, applyModify, MvccTxn.delete_value,
              MvccTxn.put_write, MvccTxn.delete_write, MvccTxn.unlock_key]
          · refine ⟨(!d.for_ufidelate_ts.is_zero) && (key == d.primary), ?_⟩
            have hw : (applyModifies key kd
                (((((txn1.delete_value key d.ts).put_write key txn1.spacelike_ts
                  (Write.new_rollback txn1.spacelike_ts
                    ((!d.for_ufidelate_ts.is_zero) && (key == d.primary)))).delete_write
                  key c2).unlock_key key (!d.for_ufidelate_ts.is_zero)).2).modifies).writes
                = removeWrite (insertWrite kd.writes txn1.spacelike_ts
                    (Write.new_rollback txn1.spacelike_ts
                      ((!d.for_ufidelate_ts.is_zero) && (key == d.primary)))) c2 := by
              simp [hm, applyModifies, applyModify, MvccTxn.delete_value,
              MvccTxn.put_write, MvccTxn.delete_write, MvccTxn.unlock_key]
            rw [hw]
            exact get_txn_commit_record_remove _ txn1.spacelike_ts c2 _
              (get_txn_commit_record_insert kd.writes txn1.spacelike_ts _ hnf rfl)
              (Nat.ne_of_lt (seek_write_lt_of_notfound kd.writes txn1.spacelike_ts
                hnf c2 w2 hseek))
        · have heq : txn1.rollback kd key
              = .ok (some (ReleasedLock.new key (!d.for_ufidelate_ts.is_zero)),
                (((txn1.delete_value key d.ts).put_write key txn1.spacelike_ts
                  (Write.new_rollback txn1.spacelike_ts
                    ((!d.for_ufidelate_ts.is_zero) && (key == d.primary)))).unlock_key key (!d.for_ufidelate_ts.is_zero)).2) := by
            rw [MvccTxn.rollback]
            simp only [MvccTxn.cleanup, load_lock, hl]
            rw [if_pos hd, if_neg hzero]
            simp only [MvccTxn.check_write_and_rollback_lock, hnf,
              TxnCommitRecord.unwrap_none, MvccTxn.rollback_lock,
              MvccTxn.collapse_prev_rollback, make_rollback,
              MvccTxn.delete_value,
              MvccTxn.put_write, MvccTxn.delete_write, MvccTxn.unlock_key, if_pos hsv, hseek, if_pos hcr, if_neg hrw]
          refine ⟨_, _, heq, ?_, ?_⟩
          · simp [hm, applyModifies, applyModify, MvccTxn.delete_value,
              MvccTxn.put_write, MvccTxn.delete_write, MvccTxn.unlock_key]
          · refine ⟨(!d.for_ufidelate_ts.is_zero) && (key == d.primary), ?_⟩
            have hw : (applyModifies key kd
                ((((txn1.delete_value key d.ts).put_write key txn1.spacelike_ts
                  (Write.new_rollback txn1.spacelike_ts
                    ((!d.for_ufidelate_ts.is_zero) && (key == d.primary)))).unlock_key key (!d.for_ufidelate_ts.is_zero)).2).modifies).writes
                = insertWrite kd.writes txn1.spacelike_ts
                    (Write.new_rollback txn1.spacelike_ts
                      ((!d.for_ufidelate_ts.is_zero) && (key == d.primary))) := by
              simp [hm, applyModifies, applyModify, MvccTxn.delete_value,
              MvccTxn.put_write, MvccTxn.delete_write, MvccTxn.unlock_key]
            rw [hw]
            exact get_txn_commit_record_insert kd.writes txn1.spacelike_ts _
              hnf rfl
      | none =>
        have heq : txn1.rollback kd key
            = .ok (some (ReleasedLock.new key (!d.for_ufidelate_ts.is_zero)),
              (((txn1.delete_value key d.ts).put_write key txn1.spacelike_ts
                (Write.new_rollback txn1.spacelike_ts
                  ((!d.for_ufidelate_ts.is_zero) && (key == d.primary)))).unlock_key key (!d.for_ufidelate_ts.is_zero)).2) := by
          rw [MvccTxn.rollback]
          simp only [MvccTxn.cleanup, load_lock, hl]
          rw [if_pos hd, if_neg hzero]
          simp only [MvccTxn.check_write_and_rollback_lock, hnf,
            TxnCommitRecord.unwrap_none, MvccTxn.rollback_lock,
            MvccTxn.collapse_prev_rollback, make_rollback,
            MvccTxn.delete_value,
            MvccTxn.put_write, MvccTxn.delete_write, MvccTxn.unlock_key, if_pos hsv, hseek, if_pos hcr]
        refine ⟨_, _, heq, ?_, ?_⟩
        · simp [hm, applyModifies, applyModify, MvccTxn.delete_value,
            MvccTxn.put_write, MvccTxn.delete_write, MvccTxn.unlock_key]
        · refine ⟨(!d.for_ufidelate_ts.is_zero) && (key == d.primary), ?_⟩
          have hw : (applyModifies key kd
              ((((txn1.delete_value key d.ts).put_write key txn1.spacelike_ts
                (Write.new_rollback txn1.spacelike_ts
                  ((!d.for_ufidelate_ts.is_zero) && (key == d.primary)))).unlock_key key (!d.for_ufidelate_ts.is_zero)).2).modifies).writes
              = insertWrite kd.writes txn1.spacelike_ts
                  (Write.new_rollback txn1.spacelike_ts
                    ((!d.for_ufidelate_ts.is_zero) && (key == d.primary))) := by
            simp [hm, applyModifies, applyModify, MvccTxn.delete_value,
            MvccTxn.put_write, MvccTxn.delete_write, MvccTxn.unlock_key]
          rw [hw]
          exact get_txn_commit_record_insert kd.writes txn1.spacelike_ts _
            hnf rfl
    · have heq : txn1.rollback kd key
          = .ok (some (ReleasedLock.new key (!d.for_ufidelate_ts.is_zero)),
            (((txn1.delete_value key d.ts).put_write key txn1.spacelike_ts
              (Write.new_rollback txn1.spacelike_ts
                ((!d.for_ufidelate_ts.is_zero) && (key == d.primary)))).unlock_key key (!d.for_ufidelate_ts.is_zero)).2) := by
        rw [MvccTxn.rollback]
        simp only [MvccTxn.cleanup, load_lock, hl]
        rw [if_pos hd, if_neg hzero]
        simp only [MvccTxn.check_write_and_rollback_lock, hnf,
          TxnCommitRecord.unwrap_none, MvccTxn.rollback_lock,
          MvccTxn.collapse_prev_rollback, make_rollback,
          MvccTxn.delete_value,
          MvccTxn.put_write, MvccTxn.delete_write, MvccTxn.unlock_key, if_pos hsv, if_neg hcr]
      refine ⟨_, _, heq, ?_, ?_⟩
      · simp [hm, applyModifies, applyModify, MvccTxn.delete_value,
          MvccTxn.put_write, MvccTxn.delete_write, MvccTxn.unlock_key]
      · refine ⟨(!d.for_ufidelate_ts.is_zero) && (key == d.primary), ?_⟩
        have hw : (applyModifies key kd
            ((((txn1.delete_value key d.ts).put_write key txn1.spacelike_ts
              (Write.new_rollback txn1.spacelike_ts
                ((!d.for_ufidelate_ts.is_zero) && (key == d.primary)))).unlock_key key (!d.for_ufidelate_ts.is_zero)).2).modifies).writes
            = insertWrite kd.writes txn1.spacelike_ts
                (Write.new_rollback txn1.spacelike_ts
                  ((!d.for_ufidelate_ts.is_zero) && (key == d.primary))) := by
          simp [hm, applyModifies, applyModify, MvccTxn.delete_value,
          MvccTxn.put_write, MvccTxn.delete_write, MvccTxn.unlock_key]
        rw [hw]
        exact get_txn_commit_record_insert kd.writes txn1.spacelike_ts _
          hnf rfl
  · by_cases hcr : txn1.collapse_rollback = true
    · cases hseek : seek_write kd.writes txn1.spacelike_ts with
      | some cw =>
        obtain ⟨c2, w2⟩ := cw
        by_cases hrw : w2.write_type = WriteType.Rollback ∧
            ¬w2.is_protected = true
        · have heq : txn1.rollback kd key
              = .ok (some (ReleasedLock.new key (!d.for_ufidelate_ts.is_zero)),
                (((txn1.put_write key txn1.spacelike_ts
                  (Write.new_rollback txn1.spacelike_ts
                    ((!d.for_ufidelate_ts.is_zero) && (key == d.primary)))).delete_write
                  key c2).unlock_key key (!d.for_ufidelate_ts.is_zero)).2) := by
            rw [MvccTxn.rollback]
            simp only [MvccTxn.cleanup, load_lock, hl]
            rw [if_pos hd, if_neg hzero]
            simp only [MvccTxn.check_write_and_rollback_lock, hnf,
              TxnCommitRecord.unwrap_none, MvccTxn.rollback_lock,
              MvccTxn.collapse_prev_rollback, make_rollback,
              MvccTxn.delete_value,
              MvccTxn.put_write, MvccTxn.delete_write, MvccTxn.unlock_key, if_neg hsv, hseek, if_pos hcr, if_pos hrw]
          refine ⟨_, _, heq, ?_, ?_⟩
          · simp [hm, applyModifies, applyModify, MvccTxn.delete_value,
              MvccTxn.put_write, MvccTxn.delete_write, MvccTxn.unlock_key]
          · refine ⟨(!d.for_ufidelate_ts.is_zero) && (key == d.primary), ?_⟩
            have hw : (applyModifies key kd
                ((((txn1.put_write key txn1.spacelike_ts
                  (Write.new_rollback txn1.spacelike_ts
                    ((!d.for_ufidelate_ts.is_zero) && (key == d.primary)))).delete_write
                  key c2).unlock_key key (!d.for_ufidelate_ts.is_zero)).2).modifies).writes
                = removeWrite (insertWrite kd.writes txn1.spacelike_ts
                    (Write.new_rollback txn1.spacelike_ts
                      ((!d.for_ufidelate_ts.is_zero) && (key == d.primary)))) c2 := by
              simp [hm, applyModifies, applyModify, MvccTxn.delete_value,
              MvccTxn.put_write, MvccTxn.delete_write, MvccTxn.unlock_key]
            rw [hw]
            exact get_txn_commit_record_remove _ txn1.spacelike_ts c2 _
              (get_txn_commit_record_insert kd.writes txn1.spacelike_ts _ hnf rfl)
              (Nat.ne_of_lt (seek_write_lt_of_notfound kd.writes txn1.spacelike_ts
                hnf c2 w2 hseek))
        · have heq : txn1.rollback kd key
              = .ok (some (ReleasedLock.new key (!d.for_ufidelate_ts.is_zero)),
                ((txn1.put_write key txn1.spacelike_ts
                  (Write.new_rollback txn1.spacelike_ts
                    ((!d.for_ufidelate_ts.is_zero) && (key == d.primary)))).unlock_key key (!d.for_ufidelate_ts.is_zero)).2) := by
            rw [MvccTxn.rollback]
            simp only [MvccTxn.cleanup, load_lock, hl]
            rw [if_pos hd, if_neg hzero]
            simp only [MvccTxn.check_write_and_rollback_lock, hnf,
              TxnCommitRecord.unwrap_none, MvccTxn.rollback_lock,
              MvccTxn.collapse_prev_rollback, make_rollback,
              MvccTxn.delete_value,
              MvccTxn.put_write, MvccTxn.delete_write, MvccTxn.unlock_key, if_neg hsv, hseek, if_pos hcr, if_neg hrw]
          refine ⟨_, _, heq, ?_, ?_⟩
          · simp [hm, applyModifies, applyModify, MvccTxn.delete_value,
              MvccTxn.put_write, MvccTxn.delete_write, MvccTxn.unlock_key]
          · refine ⟨(!d.for_ufidelate_ts.is_zero) && (key == d.primary), ?_⟩
            have hw : (applyModifies key kd
                (((txn1.put_write key txn1.spacelike_ts
                  (Write.new_rollback txn1.spacelike_ts
                    ((!d.for_ufidelate_ts.is_zero) && (key == d.primary)))).unlock_key key (!d.for_ufidelate_ts.is_zero)).2).modifies).writes
                = insertWrite kd.writes txn1.spacelike_ts
                    (Write.new_rollback txn1.spacelike_ts
                      ((!d.for_ufidelate_ts.is_zero) && (key == d.primary))) := by
              simp [hm, applyModifies, applyModify, MvccTxn.delete_value,
              MvccTxn.put_write, MvccTxn.delete_write, MvccTxn.unlock_key]
            rw [hw]
            exact get_txn_commit_record_insert kd.writes txn1.spacelike_ts _
              hnf rfl
      | none =>
        have heq : txn1.rollback kd key
            = .ok (some (ReleasedLock.new key (!d.for_ufidelate_ts.is_zero)),
              ((txn1.put_write key txn1.spacelike_ts
                (Write.new_rollback txn1.spacelike_ts
                  ((!d.for_ufidelate_ts.is_zero) && (key == d.primary)))).unlock_key key (!d.for_ufidelate_ts.is_zero)).2) := by
          rw [MvccTxn.rollback]
          simp only [MvccTxn.cleanup, load_lock, hl]
          rw [if_pos hd, if_neg hzero]
          simp only [MvccTxn.check_write_and_rollback_lock, hnf,
            TxnCommitRecord.unwrap_none, MvccTxn.rollback_lock,
            MvccTxn.collapse_prev_rollback, make_rollback,
            MvccTxn.delete_value,
            MvccTxn.put_write, MvccTxn.delete_write, MvccTxn.unlock_key, if_neg hsv, hseek, if_pos hcr]
        refine ⟨_, _, heq, ?_, ?_⟩
        · simp [hm, applyModifies, applyModify, MvccTxn.delete_value,
            MvccTxn.put_write, MvccTxn.delete_write, MvccTxn.unlock_key]
        · refine ⟨(!d.for_ufidelate_ts.is_zero) && (key == d.primary), ?_⟩
          have hw : (applyModifies key kd
              (((txn1.put_write key txn1.spacelike_ts
                (Write.new_rollback txn1.spacelike_ts
                  ((!d.for_ufidelate_ts.is_zero) && (key == d.primary)))).unlock_key key (!d.for_ufidelate_ts.is_zero)).2).modifies).writes
              = insertWrite kd.writes txn1.spacelike_ts
                  (Write.new_rollback txn1.spacelike_ts
                    ((!d.for_ufidelate_ts.is_zero) && (key == d.primary))) := by
            simp [hm, applyModifies, applyModify, MvccTxn.delete_value,
            MvccTxn.put_write, MvccTxn.delete_write, MvccTxn.unlock_key]
          rw [hw]
          exact get_txn_commit_record_insert kd.writes txn1.spacelike_ts _
            hnf rfl
    · have heq : txn1.rollback kd key
          = .ok (some (ReleasedLock.new key (!d.for_ufidelate_ts.is_zero)),
            ((txn1.put_write key txn1.spacelike_ts
              (Write.new_rollback txn1.spacelike_ts
                ((!d.for_ufidelate_ts.is_zero) && (key == d.primary)))).unlock_key key (!d.for_ufidelate_ts.is_zero)).2) := by
        rw [MvccTxn.rollback]
        simp only [MvccTxn.cleanup, load_lock, hl]
        rw [if_pos hd, if_neg hzero]
        simp only [MvccTxn.check_write_and_rollback_lock, hnf,
          TxnCommitRecord.unwrap_none, MvccTxn.rollback_lock,
          MvccTxn.collapse_prev_rollback, make_rollback,
          MvccTxn.delete_value,
          MvccTxn.put_write, MvccTxn.delete_write, MvccTxn.unlock_key, if_neg hsv, if_neg hcr]
      refine ⟨_, _, heq, ?_, ?_⟩
      · simp [hm, applyModifies, applyModify, MvccTxn.delete_value,
          MvccTxn.put_write, MvccTxn.delete_write, MvccTxn.unlock_key]
      · refine ⟨(!d.for_ufidelate_ts.is_zero) && (key == d.primary), ?_⟩
        have hw : (applyModifies key kd
            (((txn1.put_write key txn1.spacelike_ts
              (Write.new_rollback txn1.spacelike_ts
                ((!d.for_ufidelate_ts.is_zero) && (key == d.primary)))).unlock_key key (!d.for_ufidelate_ts.is_zero)).2).modifies).writes
            = insertWrite kd.writes txn1.spacelike_ts
                (Write.new_rollback txn1.spacelike_ts
                  ((!d.for_ufidelate_ts.is_zero) && (key == d.primary))) := by
          simp [hm, applyModifies, applyModify, MvccTxn.delete_value,
          MvccTxn.put_write, MvccTxn.delete_write, MvccTxn.unlock_key]
        rw [hw]
        exact get_txn_commit_record_insert kd.writes txn1.spacelike_ts _
          hnf rfl

/-- Claim C4: rollback is idempotent — once a first rollback has written its
Rollback record and released the dagger, a second rollback at the same start
timestamp over the flushed state returns Ok, buffers no mutation, and leaves
the state unchanged. -/
theorem C4_rollback_idempotent (txn1 txn2 : MvccTxn) (kd : KeyData)
    (key : Key) (d : Dagger)
    (hm1 : txn1.modifies = []) (hm2 : txn2.modifies = [])
    (hl : load_lock kd = some d) (hd : d.ts = txn1.spacelike_ts)
    (hts : txn2.spacelike_ts = txn1.spacelike_ts)
    (hnf : get_txn_commit_record kd.writes txn1.spacelike_ts
      = .NotFound none) :
    ∃ rel txn1r, txn1.rollback kd key = .ok (some rel, txn1r) ∧
      txn2.rollback (applyModifies key kd txn1r.modifies) key
        = .ok (none, txn2) ∧
      applyModifies key (applyModifies key kd txn1r.modifies) txn2.modifies
        = applyModifies key kd txn1r.modifies := by
  obtain ⟨rel, txnr, heq, hdag, p, hgrec⟩ :=
    rollback_fresh txn1 kd key d hm1 hl hd hnf
  refine ⟨rel, txnr, heq, ?_, by simp [hm2, applyModifies]⟩
  rw [MvccTxn.rollback]
  simp only [MvccTxn.cleanup, load_lock, hdag]
  simp only [MvccTxn.check_txn_status_missing_lock,
    MissingLockAction.rollback_protect, hts, hgrec]
  simp [Write.new_rollback, Bind.bind, Except.bind]

/-- Witness for C4: a lock owned by start timestamp 5 over a single newer
committed version is rolled back; the second rollback is a no-op. -/
theorem C4_rollback_idempotent_witness :
    ∃ rel txn1r,
      MvccTxn.rollback { spacelike_ts := 5 }
          { dagger := some (Dagger.new .Put [1] 5 0 (some [7]) 0 0 0),
            writes := [(40, samplePut 35)] } [1]
        = .ok (some rel, txn1r) ∧
      MvccTxn.rollback { spacelike_ts := 5 }
          (applyModifies [1]
            { dagger := some (Dagger.new .Put [1] 5 0 (some [7]) 0 0 0),
              writes := [(40, samplePut 35)] } txn1r.modifies) [1]
        = .ok (none, { spacelike_ts := 5 }) ∧
      applyModifies [1]
          (applyModifies [1]
            { dagger := some (Dagger.new .Put [1] 5 0 (some [7]) 0 0 0),
              writes := [(40, samplePut 35)] } txn1r.modifies)
          (MvccTxn.modifies { spacelike_ts := 5 })
        = applyModifies [1]
            { dagger := some (Dagger.new .Put [1] 5 0 (some [7]) 0 0 0),
              writes := [(40, samplePut 35)] } txn1r.modifies :=
  C4_rollback_idempotent { spacelike_ts := 5 } { spacelike_ts := 5 }
    { dagger := some (Dagger.new .Put [1] 5 0 (some [7]) 0 0 0),
      writes := [(40, samplePut 35)] } [1]
    (Dagger.new .Put [1] 5 0 (some [7]) 0 0 0)
    rfl rfl (by decide) (by decide) rfl (by decide)

end EinsteinDB
